import Mathlib

/-!
Verification of the picoclaw agent execution core.

This file gives a shallow embedding, in Lean 4, of the parts of the
picoclaw runtime that the specification's testable properties talk about:

* the message budgeter (`pkg/providers/budget.go`),
* the tool-execution policy (`pkg/tools/policy.go`),
* execution-context argument injection (`pkg/tools/context_args.go`),
* the concurrent tool-call batch executor (`ToolRegistry.ExecuteToolCalls`),
* the provider client's retry loop (`HTTPProvider.Chat` / `computeRetryWait`),
* the agent iteration loop with exhaustion summary (`AgentLoop.runLLMIteration`),
* the subagent manager's `Cancel` path.

Go byte strings are modelled as `List Char` (`Str`); Go `int` values are
modelled as `Int` (all arithmetic stays far from 64-bit overflow except the
exponential backoff product, which is wrapped explicitly).  Concurrency is
modelled by making the nondeterministic outcome of each worker an explicit
parameter; I/O (HTTP, logging, clocks) is abstracted into oracle parameters.

Types that the repository defines outside the sources available here
(`providers.Message`, `providers.ToolCall`, `providers.LLMResponse`,
`providers.ToolResultMessage`, `providers.AssistantMessageFromResponse`)
are modelled from the specification's data model, and are marked as such.
-/

namespace Picoclaw

/-- Str models a Go string as its list of bytes (one `Char` per byte). -/
abbrev Str := List Char

/-- apostrophe character, used to spell string literals containing one. -/
def apos : Char := Char.ofNat 39

/-- goToLower models `strings.ToLower` (ASCII case folding suffices here). -/
def goToLower (s : Str) : Str := s.map Char.toLower

/-- goTrimSpace models `strings.TrimSpace`: drop leading and trailing whitespace. -/
def goTrimSpace (s : Str) : Str :=
  ((s.dropWhile Char.isWhitespace).reverse.dropWhile Char.isWhitespace).reverse

/-- strEqualFold models `strings.EqualFold` for the ASCII alphabet. -/
def strEqualFold (a b : Str) : Bool := goToLower a = goToLower b

/-- natStr renders a natural number in decimal, as `fmt`'s `%d` does. -/
def natStr (n : Nat) : Str := (Nat.repr n).data

/-- intStr renders an integer in decimal, as `fmt`'s `%d` does. -/
def intStr (n : Int) : Str := (Int.repr n).data

namespace providers

/-- Modelled from the spec: a `ToolCall` carries an opaque provider-chosen id,
a tool name, a parsed arguments mapping, and optionally the raw arguments
string kept when JSON parsing fails (`providers.ToolCall` is defined outside
the available sources).  The arguments mapping is opaque for our purposes. -/
structure ToolCall where
  id : Str
  name : Str
  rawArguments : Str
  deriving DecidableEq, Repr

/-- Modelled from the spec: a chat `Message` has a role (system, user,
assistant or tool), content, an ordered list of tool calls (assistant
messages), and a `tool_call_id` (tool result messages). -/
structure Message where
  role : Str
  content : Str
  toolCalls : List ToolCall
  toolCallID : Str
  deriving DecidableEq, Repr

/-- Modelled from the spec: token usage triple reported by the provider. -/
structure UsageInfo where
  promptTokens : Int
  completionTokens : Int
  totalTokens : Int
  deriving DecidableEq, Repr

/-- Modelled from the spec: a normalized LLM response: content (possibly
empty), ordered tool calls (possibly none), a finish reason, and usage. -/
structure LLMResponse where
  content : Str
  toolCalls : List ToolCall
  finishReason : Str
  usage : Option UsageInfo
  deriving DecidableEq, Repr

/-- Modelled from the spec: `providers.ToolResultMessage id content` builds a
tool-result message: role `tool`, carrying the originating `tool_call_id`. -/
def ToolResultMessage (id : Str) (content : Str) : Message :=
  { role := "tool".data, content := content, toolCalls := [], toolCallID := id }

/-- Modelled from the spec: `providers.AssistantMessageFromResponse` builds the
assistant message recording a response's content and its tool calls. -/
def AssistantMessageFromResponse (resp : LLMResponse) : Message :=
  { role := "assistant".data, content := resp.content,
    toolCalls := resp.toolCalls, toolCallID := [] }

/-- defaultTruncationMarker from budget.go. -/
def defaultTruncationMarker : Str := "... [truncated]".data

/-- MessageBudget from budget.go: payload limits applied before provider
calls; a field that is not positive means "unbounded". -/
structure MessageBudget where
  MaxMessages : Int
  MaxTotalChars : Int
  MaxMessageChars : Int
  MaxToolMessageChars : Int
  TruncationMarker : Str
  deriving DecidableEq, Repr

/-- BudgetFromContextWindow from budget.go: derive a conservative default
budget from an estimated context window size in tokens.  All division
operands are positive, where Go and Lean integer division agree. -/
def BudgetFromContextWindow (contextWindow : Int) : MessageBudget :=
  let contextWindow := if contextWindow ≤ 0 then 8192 else contextWindow
  let maxTotalChars := contextWindow * 4 * 80 / 100
  let maxTotalChars := if maxTotalChars < 32000 then 32000 else maxTotalChars
  let maxMessageChars := maxTotalChars / 3
  let maxMessageChars := if maxMessageChars < 4000 then 4000 else maxMessageChars
  let maxToolChars := maxMessageChars / 2
  let maxToolChars := if maxToolChars < 2000 then 2000 else maxToolChars
  { MaxMessages := 200
    MaxTotalChars := maxTotalChars
    MaxMessageChars := maxMessageChars
    MaxToolMessageChars := maxToolChars
    TruncationMarker := defaultTruncationMarker }

/-- Enabled from budget.go: some limit is active. -/
def MessageBudget.Enabled (b : MessageBudget) : Prop :=
  0 < b.MaxMessages ∨ 0 < b.MaxTotalChars ∨ 0 < b.MaxMessageChars ∨
    0 < b.MaxToolMessageChars

instance (b : MessageBudget) : Decidable b.Enabled := by
  unfold MessageBudget.Enabled; infer_instance

/-- marker from budget.go (method `marker`): the configured truncation marker,
defaulting when empty. -/
def MessageBudget.marker (b : MessageBudget) : Str :=
  if b.TruncationMarker = [] then defaultTruncationMarker else b.TruncationMarker

/-- MessageBudgetStats from budget.go. -/
structure MessageBudgetStats where
  InputMessages : Nat
  OutputMessages : Nat
  CharsBefore : Nat
  CharsAfter : Nat
  TruncatedMessages : Nat
  DroppedMessages : Nat
  deriving DecidableEq, Repr

/-- Changed from budget.go. -/
def MessageBudgetStats.Changed (s : MessageBudgetStats) : Prop :=
  0 < s.TruncatedMessages ∨ 0 < s.DroppedMessages ∨
    s.CharsAfter ≠ s.CharsBefore ∨ s.OutputMessages ≠ s.InputMessages

/-- sumMessageChars from budget.go. -/
def sumMessageChars (messages : List Message) : Nat :=
  (messages.map (fun m => m.content.length)).sum

/-- truncateWithMarker from budget.go: keep a prefix and append the marker;
if the marker does not fit, truncate the marker itself. -/
def truncateWithMarker (content : Str) (limit : Int) (marker : Str) : Str :=
  if limit ≤ 0 then []
  else if (content.length : Int) ≤ limit then content
  else
    let marker := if marker = [] then defaultTruncationMarker else marker
    if (marker.length : Int) ≥ limit then marker.take limit.toNat
    else
      let keep := limit - (marker.length : Int)
      let keep := if keep < 0 then 0 else keep
      content.take keep.toNat ++ marker

/-- sysRole abbreviates the role string "system". -/
def sysRole : Str := "system".data

/-- effectiveLimit is the per-message clipping limit chosen by the first loop
of ApplyMessageBudget: the tool cap for tool messages when it is active,
otherwise the general per-message cap. -/
def effectiveLimit (budget : MessageBudget) (m : Message) : Int :=
  if m.role = "tool".data ∧ 0 < budget.MaxToolMessageChars then
    budget.MaxToolMessageChars
  else budget.MaxMessageChars

/-- clipOne is the body of ApplyMessageBudget's first loop: clip one
message's content to its effective limit. -/
def clipOne (budget : MessageBudget) (marker : Str) (m : Message) : Message :=
  let limit := effectiveLimit budget m
  if 0 < limit ∧ limit < (m.content.length : Int) then
    { m with content := truncateWithMarker m.content limit marker }
  else m

/-- clipPass is ApplyMessageBudget's first loop over all messages. -/
def clipPass (budget : MessageBudget) (marker : Str) (messages : List Message) :
    List Message :=
  messages.map (clipOne budget marker)

/-- clipCount counts the messages the first loop actually truncated
(`stats.TruncatedMessages++` inside the loop). -/
def clipCount (budget : MessageBudget) (messages : List Message) : Nat :=
  (messages.filter (fun m =>
    decide (0 < effectiveLimit budget m ∧
      effectiveLimit budget m < (m.content.length : Int)))).length

/-- keepLatestFlags computes, over the reversed message list, which messages
`keepSystemAndLatest` keeps: all system messages plus the newest `slots`
non-system messages.  This is the order-preserving functional form of the
Go code's index-set-plus-sort construction. -/
def keepLatestFlags : List Message → Nat → List Bool
  | [], _ => []
  | m :: rest, slots =>
    if m.role = sysRole then true :: keepLatestFlags rest slots
    else if 0 < slots then true :: keepLatestFlags rest (slots - 1)
    else false :: keepLatestFlags rest slots

/-- keptOfFlags keeps the elements whose flag is true (the `keep[idx]`
selection of budget.go, applied to a reversed list). -/
def keptOfFlags (rev : List Message) (flags : List Bool) : List Message :=
  ((rev.zip flags).filter (fun p => p.2)).map (fun p => p.1)

/-- keepSystemAndLatest from budget.go: under a message-count cap, keep the
system messages (up to the cap) and fill the remaining slots with the newest
non-system messages, preserving the original order. -/
def keepSystemAndLatest (messages : List Message) (maxMessages : Int) :
    List Message :=
  if maxMessages ≤ 0 ∨ (messages.length : Int) ≤ maxMessages then messages
  else
    let systemMsgs := messages.filter (fun m => decide (m.role = sysRole))
    if (systemMsgs.length : Int) ≥ maxMessages then
      systemMsgs.take maxMessages.toNat
    else
      let slots := maxMessages.toNat - systemMsgs.length
      let rev := messages.reverse
      (keptOfFlags rev (keepLatestFlags rev slots)).reverse

/-- greedyFlags computes, over the reversed message list, the `keep[]` flags
of keepWithinTotalChars: system messages are always kept, and non-system
messages are selected newest-first while their content still fits in the
remaining character budget. -/
def greedyFlags : List Message → Nat → List Bool
  | [], _ => []
  | m :: rest, remaining =>
    if m.role = sysRole then true :: greedyFlags rest remaining
    else if m.content.length ≤ remaining then
      true :: greedyFlags rest (remaining - m.content.length)
    else false :: greedyFlags rest remaining

/-- noneSelected holds when no non-system message was selected
(`selectedNonSystem == 0` in budget.go). -/
def noneSelected (rev : List Message) (flags : List Bool) : Bool :=
  (rev.zip flags).all (fun p => decide (p.1.role = sysRole) || !p.2)

/-- forceFirstNonSystem sets the flag of the first non-system message of the
reversed list to true (`keep[latestNonSystem] = true` in budget.go). -/
def forceFirstNonSystem : List Message → List Bool → List Bool
  | [], flags => flags
  | _, [] => []
  | m :: rest, f :: fs =>
    if m.role = sysRole then f :: forceFirstNonSystem rest fs
    else true :: fs

/-- totalSys is the `totalSystem` accumulation of keepWithinTotalChars: the
characters used by system messages. -/
def totalSys (messages : List Message) : Nat :=
  sumMessageChars (messages.filter (fun m => decide (m.role = sysRole)))

/-- sumNonSys is the character count of the non-system messages. -/
def sumNonSys (messages : List Message) : Nat :=
  sumMessageChars (messages.filter (fun m => !decide (m.role = sysRole)))

/-- keepWithinTotalChars from budget.go: keep all system messages, then walk
non-system messages newest-first, greedily keeping those that fit the
remaining budget; if none fits, force-keep the newest non-system message. -/
def keepWithinTotalChars (messages : List Message) (maxTotalChars : Int) :
    List Message :=
  if maxTotalChars ≤ 0 ∨ (sumMessageChars messages : Int) ≤ maxTotalChars then
    messages
  else
    let remaining := (maxTotalChars - (totalSys messages : Int)).toNat
    let rev := messages.reverse
    let flags := greedyFlags rev remaining
    let flags :=
      if noneSelected rev flags ∧ messages.any (fun m => !decide (m.role = sysRole))
      then forceFirstNonSystem rev flags
      else flags
    (keptOfFlags rev flags).reverse

/-- trimTarget is the clamped target length of the final-fit pass:
current length minus the overflow, at least 1. -/
def trimTarget (overflow : Int) (m : Message) : Int :=
  let target := (m.content.length : Int) - overflow
  if target < 1 then 1 else target

/-- trimMessage truncates one message to the final-fit target when the
target is actually smaller than the current content. -/
def trimMessage (overflow : Int) (marker : Str) (m : Message) : Message :=
  if trimTarget overflow m < (m.content.length : Int) then
    { m with content := truncateWithMarker m.content (trimTarget overflow m) marker }
  else m

/-- trimFromEnd walks the reversed message list, skips system messages, and
applies the final-fit truncation to the first (i.e. newest) non-system
message, then stops; the second component reports whether a message was
actually truncated. -/
def trimFromEnd (overflow : Int) (marker : Str) : List Message → List Message × Nat
  | [] => ([], 0)
  | m :: rest =>
    if m.role = sysRole then
      let r := trimFromEnd overflow marker rest
      (m :: r.1, r.2)
    else if trimTarget overflow m < (m.content.length : Int) then
      (trimMessage overflow marker m :: rest, 1)
    else (m :: rest, 0)

/-- budgetStep2 is ApplyMessageBudget's message-count paragraph: apply
keepSystemAndLatest when the count cap is active and exceeded. -/
def budgetStep2 (budget : MessageBudget) (trimmed1 : List Message) :
    List Message :=
  if 0 < budget.MaxMessages ∧ budget.MaxMessages < (trimmed1.length : Int) then
    keepSystemAndLatest trimmed1 budget.MaxMessages
  else trimmed1

/-- budgetStep3 is ApplyMessageBudget's total-character paragraph: apply
keepWithinTotalChars when the character cap is active and exceeded, then, if
the result is still over the cap, run the final-fit pass that trims the
newest non-system message.  Besides the message list it returns the dropped
count and how many messages the final fit truncated. -/
def budgetStep3 (budget : MessageBudget) (marker : Str)
    (trimmed2 : List Message) : List Message × Nat × Nat :=
  if 0 < budget.MaxTotalChars ∧
      budget.MaxTotalChars < (sumMessageChars trimmed2 : Int) then
    let next := keepWithinTotalChars trimmed2 budget.MaxTotalChars
    let total := sumMessageChars next
    if budget.MaxTotalChars < (total : Int) then
      let r := trimFromEnd ((total : Int) - budget.MaxTotalChars) marker
        next.reverse
      (r.1.reverse, trimmed2.length - next.length, r.2)
    else (next, trimmed2.length - next.length, 0)
  else (trimmed2, 0, 0)

/-- ApplyMessageBudget from budget.go: clip individual messages, enforce the
message-count cap, enforce the total-character cap, and as a final fit trim
the newest non-system message; returns the trimmed list and statistics. -/
def ApplyMessageBudget (messages : List Message) (budget : MessageBudget) :
    List Message × MessageBudgetStats :=
  let charsBefore := sumMessageChars messages
  if messages.length = 0 ∨ ¬ budget.Enabled then
    (messages,
      { InputMessages := messages.length, OutputMessages := messages.length
        CharsBefore := charsBefore, CharsAfter := charsBefore
        TruncatedMessages := 0, DroppedMessages := 0 })
  else
    let marker := budget.marker
    let trimmed1 := clipPass budget marker messages
    let trimmed2 := budgetStep2 budget trimmed1
    let step3 := budgetStep3 budget marker trimmed2
    (step3.1,
      { InputMessages := messages.length, OutputMessages := step3.1.length
        CharsBefore := charsBefore, CharsAfter := sumMessageChars step3.1
        TruncatedMessages := clipCount budget messages + step3.2.2
        DroppedMessages := (trimmed1.length - trimmed2.length) + step3.2.1 })

/-- RetryConfig collects the retry-relevant fields of `HTTPProvider`.
The float64 `retryJitter` field is modelled by the boolean
`jitterEnabled` (i.e. `retryJitter > 0`); the floating-point
multiplication `time.Duration(float64(wait) * factor)` is abstracted as an
arbitrary function argument `jitterMul` of `computeRetryWait`. -/
structure RetryConfig where
  maxRetries : Nat
  retryBaseWait : Int
  retryMaxWait : Int
  jitterEnabled : Bool
  deriving DecidableEq, Repr

/-- wrap64 reduces an integer to Go's two's-complement int64 range. -/
def wrap64 (x : Int) : Int := (x + 2 ^ 63) % 2 ^ 64 - 2 ^ 63

/-- computeRetryWait from the provider client: exponential backoff capped at
`retryMaxWait`; jitter only when no Retry-After hint is present; a present
Retry-After hint is clamped to `[0, retryMaxWait]` and the larger of the two
waits is used.  Durations are in nanoseconds (`time.Millisecond = 1e6`);
the Go shift-and-multiply `retryBaseWait * (1 << (attempt-1))` is wrapped
to int64 as Go does. -/
def computeRetryWait (p : RetryConfig) (jitterMul : Int → Int) (attempt : Nat)
    (retryAfterHint : Int) (hasRetryAfterHint : Bool) : Int :=
  let wait := wrap64 (p.retryBaseWait * wrap64 (2 ^ (attempt - 1)))
  let wait := if p.retryMaxWait < wait then p.retryMaxWait else wait
  let wait :=
    if ¬ hasRetryAfterHint ∧ p.jitterEnabled then
      let w := jitterMul wait
      let w := if w ≤ 0 then 1000000 else w
      if p.retryMaxWait < w then p.retryMaxWait else w
    else wait
  if hasRetryAfterHint then
    let retryAfter := if retryAfterHint < 0 then 0 else retryAfterHint
    let retryAfter :=
      if p.retryMaxWait < retryAfter then p.retryMaxWait else retryAfter
    if wait < retryAfter then retryAfter else wait
  else wait

/-- shouldRetry from the provider client: a response is empty or broken when
its finish reason equals "error" case-insensitively, or it has no content
and no tool calls. -/
def shouldRetry (resp : LLMResponse) : Bool :=
  strEqualFold resp.finishReason "error".data ||
    (decide (resp.content = []) && decide (resp.toolCalls = []))

/-- strContains models `strings.Contains`. -/
def strContains : Str → Str → Bool
  | s, sub =>
    match s with
    | [] => decide (sub = [])
    | c :: rest =>
      decide ((c :: rest).take sub.length = sub) || strContains rest sub

/-- isRetryableHTTPError from the provider client: 5xx and 429 are
retryable, as is 401 whose body mentions "user not found".  The Go code
first tries the JSON error-message field and then falls back to the raw
body; both amount to the raw body containing the phrase, which is how it
is modelled here. -/
def isRetryableHTTPError (status : Int) (body : Str) : Bool :=
  decide (status = 429) || decide (500 ≤ status) ||
    (decide (status = 401) && strContains (goToLower body) "user not found".data)

/-- goTruncate models `utils.Truncate`.  Modelled from the spec: the helper
is referenced by the provider client but defined outside the available
sources; the spec only requires the body to be truncated to the given size. -/
def goTruncate (s : Str) (n : Nat) : Str := s.take n

/-- AttemptStep describes what one iteration of Chat's retry loop observes
from the outside world: a context cancellation during the backoff wait, a
transport error from `doRequest` (with the context error, if any), a body
read error, a non-200 HTTP reply, or a 200 reply whose body parse either
fails or yields a response. -/
inductive AttemptStep where
  | ctxCancelledInWait (ctxErr : Str)
  | transportError (errText : Str) (ctxErr : Option Str)
  | readError (errText : Str)
  | httpReply (status : Int) (body : Str) (retryAfterHint : Option Int)
  | okParse (parsed : Except Str LLMResponse)

/-- emptyResponseErr is the error recorded when shouldRetry fires. -/
def emptyResponseErr (finishReason : Str) : Str :=
  "empty or error response from LLM (finish_reason=".data ++ finishReason ++
    ")".data

/-- apiErrText is the error recorded for a non-200 HTTP status. -/
def apiErrText (status : Int) (body : Str) : Str :=
  "API error (HTTP ".data ++ intStr status ++ "): ".data ++ goTruncate body 500

/-- chatFailedErr is the error returned when all attempts are exhausted
(`LLM request failed after %d attempts: %w`). -/
def chatFailedErr (attempts : Nat) (lastErr : Str) : Str :=
  "LLM request failed after ".data ++ natStr attempts ++ " attempts: ".data ++
    lastErr

/-- chatLoop is the retry loop of `HTTPProvider.Chat`, with the HTTP and
timing side effects abstracted into the `attempts` oracle; it returns the
number of HTTP calls performed together with the final outcome.  The backoff
wait itself has no observable effect here beyond the possibility of a
context cancellation, which is one of the oracle's steps. -/
def chatLoop (p : RetryConfig) (attempts : Nat → AttemptStep) :
    Nat → Nat → Str → Nat → Nat × Except Str LLMResponse
  | 0, _, lastErr, calls => (calls, .error (chatFailedErr (p.maxRetries + 1) lastErr))
  | fuel + 1, attempt, lastErr, calls =>
    match attempts attempt with
    | .ctxCancelledInWait ctxErr =>
      (calls, .error ("context cancelled during retry wait: ".data ++ ctxErr))
    | .transportError e ctxErr =>
      match ctxErr with
      | some _ => (calls + 1, .error ("failed to send request: ".data ++ e))
      | none => chatLoop p attempts fuel (attempt + 1) e (calls + 1)
    | .readError e => chatLoop p attempts fuel (attempt + 1) e (calls + 1)
    | .httpReply status body _ =>
      let errText := apiErrText status body
      if isRetryableHTTPError status body then
        chatLoop p attempts fuel (attempt + 1) errText (calls + 1)
      else (calls + 1, .error errText)
    | .okParse (.error parseErr) =>
      chatLoop p attempts fuel (attempt + 1) parseErr (calls + 1)
    | .okParse (.ok resp) =>
      if shouldRetry resp then
        chatLoop p attempts fuel (attempt + 1)
          (emptyResponseErr resp.finishReason) (calls + 1)
      else (calls + 1, .ok resp)

/-- Chat is `HTTPProvider.Chat` over the attempt oracle: the configuration
check, then `maxRetries + 1` attempts. -/
def Chat (p : RetryConfig) (apiBase : Str) (attempts : Nat → AttemptStep) :
    Nat × Except Str LLMResponse :=
  if apiBase = [] then (0, .error ("API base not configured".data))
  else chatLoop p attempts (p.maxRetries + 1) 0 [] 0

/-- rolesOf lists the roles of a message list (a proof-side view used to
state that the budget passes preserve roles). -/
def rolesOf (messages : List Message) : List Str :=
  messages.map (fun m => m.role)

/-- countSys counts the system messages of a list (a proof-side view of the
`systemIdx` bookkeeping of budget.go). -/
def countSys (messages : List Message) : Nat :=
  (messages.filter (fun m => decide (m.role = sysRole))).length

/-- ClipReady says a message already fits its effective limit, so the
clipping loop of ApplyMessageBudget leaves it alone. -/
def ClipReady (b : MessageBudget) (m : Message) : Prop :=
  effectiveLimit b m ≤ 0 ∨ (m.content.length : Int) ≤ effectiveLimit b m

/-- AllNonSysZero says every non-system message has empty content (one of
the two shapes an over-budget output of the char-cap step can have). -/
def AllNonSysZero (messages : List Message) : Prop :=
  ∀ m ∈ messages, ¬ m.role = sysRole → m.content.length = 0

/-- OneNonSysUnit says the list is system messages around a single
non-system message of content length 1 (the other over-budget shape). -/
def OneNonSysUnit (messages : List Message) : Prop :=
  ∃ pre L post, messages = pre ++ L :: post ∧
    (∀ m ∈ pre, m.role = sysRole) ∧ (∀ m ∈ post, m.role = sysRole) ∧
    ¬ L.role = sysRole ∧ L.content.length = 1

/-- SysFlagsTrue says every system message's keep flag is set (which the
first loop of keepWithinTotalChars guarantees). -/
def SysFlagsTrue (rev : List Message) (flags : List Bool) : Prop :=
  ∀ p ∈ rev.zip flags, p.1.role = sysRole → p.2 = true

end providers

namespace tools

/-- ToolExecutionPolicy from policy.go; the Go string-keyed sets are
modelled as lists with membership semantics. -/
structure ToolExecutionPolicy where
  Enabled : Bool
  Allow : List Str
  Deny : List Str
  deriving DecidableEq, Repr

/-- NewToolExecutionPolicy from policy.go: normalize every allow and deny
entry (`strings.TrimSpace(strings.ToLower(name))`) and skip empty entries. -/
def NewToolExecutionPolicy (enabled : Bool) (allow deny : List Str) :
    ToolExecutionPolicy :=
  { Enabled := enabled
    Allow := (allow.map (fun n => goTrimSpace (goToLower n))).filter
      (fun n => !decide (n = []))
    Deny := (deny.map (fun n => goTrimSpace (goToLower n))).filter
      (fun n => !decide (n = [])) }

/-- check from policy.go: deny is consulted before allow; `none` means the
tool may run, `some e` is the error text. -/
def ToolExecutionPolicy.check (p : ToolExecutionPolicy) (toolName : Str) :
    Option Str :=
  if !p.Enabled then none
  else
    let name := goToLower (goTrimSpace toolName)
    if name = [] then some "tool name is empty".data
    else if p.Deny.contains name then
      some ("tool ".data ++ toolName ++ " is blocked by policy".data)
    else if ¬ p.Allow = [] ∧ ¬ p.Allow.contains name then
      some ("tool ".data ++ toolName ++ " is not allowed by policy".data)
    else none

/-- GoValue models Go's `interface{}` argument values: the strings the
runtime injects, plus opaque values of any other shape. -/
inductive GoValue where
  | str (s : Str)
  | num (n : Int)
  | opaq (tag : Nat)
  deriving DecidableEq, Repr

/-- ArgsMap models `map[string]interface{}` as an association list whose
observable behaviour is `lookupArg`. -/
abbrev ArgsMap := List (Str × GoValue)

/-- lookupArg is map lookup (first matching key). -/
def lookupArg (m : ArgsMap) (k : Str) : Option GoValue :=
  (m.find? (fun p => decide (p.1 = k))).map (fun p => p.2)

/-- insertArg is map insertion with overwrite semantics. -/
def insertArg (m : ArgsMap) (k : Str) (v : GoValue) : ArgsMap :=
  m.filter (fun p => !decide (p.1 = k)) ++ [(k, v)]

/-- execContextChannelKey from context_args.go. -/
def execContextChannelKey : Str := "__context_channel".data

/-- execContextChatIDKey from context_args.go. -/
def execContextChatIDKey : Str := "__context_chat_id".data

/-- execContextTraceIDKey from context_args.go. -/
def execContextTraceIDKey : Str := "__context_trace_id".data

/-- withExecutionContext from context_args.go: when all three context values
are empty, return the caller's map unchanged; otherwise build a fresh copy
and add a reserved key for each non-empty value. -/
def withExecutionContext (args : ArgsMap) (channel chatID traceID : Str) :
    ArgsMap :=
  if channel = [] ∧ chatID = [] ∧ traceID = [] then args
  else
    let copyArgs := args
    let copyArgs :=
      if ¬ channel = [] then insertArg copyArgs execContextChannelKey (.str channel)
      else copyArgs
    let copyArgs :=
      if ¬ chatID = [] then insertArg copyArgs execContextChatIDKey (.str chatID)
      else copyArgs
    let copyArgs :=
      if ¬ traceID = [] then insertArg copyArgs execContextTraceIDKey (.str traceID)
      else copyArgs
    copyArgs

/-- WorkerOutcome is the nondeterministic fate of one tool-call worker in
`ExecuteToolCalls`: the context was already cancelled when the worker raced
the semaphore, or the tool panicked (the recovered value's text), or
`ExecuteWithContext` returned an error, or it returned a result. -/
inductive WorkerOutcome where
  | ctxCancelled (ctxErr : Str)
  | panicked (recovered : Str)
  | execError (errText : Str)
  | execOK (result : Str)
  deriving DecidableEq, Repr

/-- workerResult is the tool-result message a worker writes into its own
slot of the results array, for each possible outcome, as in part_014:
context errors and execution errors are prefixed with "Error: ", panics
produce "Error: tool <name> panicked: <v>", and every result carries the
original tool-call id. -/
def workerResult (tc : providers.ToolCall) : WorkerOutcome → providers.Message
  | .ctxCancelled ctxErr =>
    providers.ToolResultMessage tc.id ("Error: ".data ++ ctxErr)
  | .panicked recovered =>
    providers.ToolResultMessage tc.id
      ("Error: tool ".data ++ tc.name ++ " panicked: ".data ++ recovered)
  | .execError errText =>
    providers.ToolResultMessage tc.id ("Error: ".data ++ errText)
  | .execOK result => providers.ToolResultMessage tc.id result

/-- executeCallsFrom runs the workers: the worker at input position `i`
writes `workerResult` of its own outcome into slot `i`. -/
def executeCallsFrom (outcome : Nat → providers.ToolCall → WorkerOutcome) :
    Nat → List providers.ToolCall → List providers.Message
  | _, [] => []
  | i, tc :: rest =>
    workerResult tc (outcome i tc) :: executeCallsFrom outcome (i + 1) rest

/-- ExecuteToolCalls from part_014, with each worker's nondeterministic
fate supplied by the `outcome` oracle: an empty batch returns nil, and
otherwise the pre-allocated results array is filled slot by slot. -/
def ExecuteToolCalls (toolCalls : List providers.ToolCall)
    (outcome : Nat → providers.ToolCall → WorkerOutcome) :
    List providers.Message :=
  if toolCalls.length = 0 then [] else executeCallsFrom outcome 0 toolCalls

/-- ExecuteToolCallsWithReport additionally models the progress reporter:
`completionOrder` is the order in which worker indices arrive on the done
channel, and each arrival invokes the callback with the running completed
count, the total, and the worker's input index.  The results array is
written only by the workers, never by the reporter. -/
def ExecuteToolCallsWithReport (toolCalls : List providers.ToolCall)
    (outcome : Nat → providers.ToolCall → WorkerOutcome)
    (completionOrder : List Nat) :
    List providers.Message × List (Nat × Nat × Nat) :=
  (ExecuteToolCalls toolCalls outcome,
    (List.range completionOrder.length).zip completionOrder |>.map
      (fun p => (p.1 + 1, toolCalls.length, p.2)))

/-- SubagentTask from part_007. -/
structure SubagentTask where
  id : Str
  task : Str
  label : Str
  originChannel : Str
  originChatID : Str
  status : Str
  result : Str
  created : Int
  deriving DecidableEq, Repr

/-- SubagentErr models the two named errors of part_007
(`ErrSubagentTaskNotFound`, `ErrSubagentNotRunning`). -/
inductive SubagentErr where
  | taskNotFound
  | notRunning
  deriving DecidableEq, Repr

/-- SubagentManagerState is the mutable state of SubagentManager guarded by
its lock: the task table, the ids holding a cancel handle, the record of
which cancel handles have been invoked (instrumentation for the model), and
the next task number. -/
structure SubagentManagerState where
  tasks : List (Str × SubagentTask)
  cancels : List Str
  invoked : List Str
  nextID : Nat
  deriving DecidableEq, Repr

/-- lookupTask is the task-table lookup `sm.tasks[taskID]`. -/
def lookupTask (tasks : List (Str × SubagentTask)) (id : Str) :
    Option SubagentTask :=
  (tasks.find? (fun p => decide (p.1 = id))).map (fun p => p.2)

/-- updateTask rewrites the entry of one task id in place. -/
def updateTask (tasks : List (Str × SubagentTask)) (id : Str)
    (f : SubagentTask → SubagentTask) : List (Str × SubagentTask) :=
  tasks.map (fun p => if p.1 = id then (p.1, f p.2) else p)

/-- Spawn from part_007, reduced to its state transition: allocate the
monotonic id, create the running task, store a cancel handle, bump the
counter.  `now` abstracts `time.Now().UnixMilli()`. -/
def Spawn (st : SubagentManagerState)
    (task label originChannel originChatID : Str) (now : Int) :
    SubagentManagerState × Str :=
  let taskID := "subagent-".data ++ natStr st.nextID
  let t : SubagentTask :=
    { id := taskID, task := task, label := label
      originChannel := originChannel, originChatID := originChatID
      status := "running".data, result := [], created := now }
  ({ st with tasks := st.tasks ++ [(taskID, t)]
             cancels := st.cancels ++ [taskID]
             nextID := st.nextID + 1 }, taskID)

/-- Cancel from part_007: unknown id errors with TaskNotFound; a task whose
status is not "running" (or whose cancel handle is gone) errors with
NotRunning; otherwise the status becomes "cancelling" and the stored cancel
handle is invoked. -/
def Cancel (st : SubagentManagerState) (taskID : Str) :
    SubagentManagerState × Option SubagentErr :=
  match lookupTask st.tasks taskID with
  | none => (st, some .taskNotFound)
  | some task =>
    if ¬ task.status = "running".data then (st, some .notRunning)
    else if ¬ st.cancels.contains taskID then (st, some .notRunning)
    else
      ({ st with
          tasks := updateTask st.tasks taskID
            (fun t => { t with status := "cancelling".data })
          invoked := st.invoked ++ [taskID] }, none)

/-- isTerminalStatus comes from the spec's status set: the terminal statuses
are cancelled, completed and failed ("cancelling" is not terminal). -/
def isTerminalStatus (s : Str) : Bool :=
  decide (s = "cancelled".data) || decide (s = "completed".data) ||
    decide (s = "failed".data)

end tools

namespace agent

/-- ToolDefinition as sent to the provider.  Modelled from the spec: name,
description and a type tag (the JSON-schema parameters object is opaque
for our purposes). -/
structure ToolDefinition where
  typeTag : Str
  name : Str
  description : Str
  deriving DecidableEq, Repr

/-- IterCall records one provider call made by the iteration loop: the
message list sent and the tools argument (`none` models Go's nil tools of
the summary call). -/
structure IterCall where
  messages : List providers.Message
  tools : Option (List ToolDefinition)
  deriving DecidableEq

/-- LoopOutcome is how the iteration loop's main `for` ended: an LLM error,
a direct (tool-call-free) answer, or exhaustion of the iteration budget. -/
inductive LoopOutcome where
  | errOut (e : Str)
  | direct (content : Str)
  | exhausted
  deriving DecidableEq

/-- LoopState carries the working history, the iteration counter, the
trace of provider calls made so far, and the outcome. -/
structure LoopState where
  messages : List providers.Message
  iteration : Nat
  calls : List IterCall
  outcome : LoopOutcome
  deriving DecidableEq

/-- summaryLimitMessage is the terminal user message the exhaustion branch
of runLLMIteration appends before the summary call. -/
def summaryLimitMessage : providers.Message :=
  { role := "user".data
    content :=
      "You".data ++ [apos] ++
      "ve reached your tool call iteration limit. Please summarize what you".data
      ++ [apos] ++
      "ve accomplished so far and what still needs to be done. The user can tell you to continue.".data
    toolCalls := [], toolCallID := [] }

/-- iterationLimitFallback is the fixed fallback text used when the summary
call itself fails; it names the iteration cap. -/
def iterationLimitFallback (maxIterations : Nat) : Str :=
  "I reached my tool call limit (".data ++ natStr maxIterations ++
    " iterations) before finishing. Ask me to continue and I".data ++ [apos]
    ++ "ll pick up where I left off.".data

/-- runIterGo is the main `for` loop of runLLMIteration (part_004): each
turn calls the provider with the registry's tool definitions; a response
without tool calls is a direct answer; otherwise the assistant message and
the tool results are appended and the loop continues.  The provider is
abstracted as an oracle indexed by the call number; the `fuel` argument is
the number of iterations still allowed. -/
def runIterGo (responses : Nat → Except Str providers.LLMResponse)
    (toolDefs : List ToolDefinition)
    (execTools : List providers.ToolCall → Nat → List providers.Message) :
    Nat → LoopState → LoopState
  | 0, st => st
  | fuel + 1, st =>
    let st1 :=
      { st with
        iteration := st.iteration + 1,
        calls := st.calls ++ [IterCall.mk st.messages (some toolDefs)] }
    match responses st.iteration with
    | .error e => { st1 with outcome := .errOut e }
    | .ok resp =>
      if resp.toolCalls = [] then { st1 with outcome := .direct resp.content }
      else
        let assistantMsg := providers.AssistantMessageFromResponse resp
        let toolResults := execTools resp.toolCalls st1.iteration
        runIterGo responses toolDefs execTools fuel
          { st1 with messages := st1.messages ++ [assistantMsg] ++ toolResults }

/-- IterResult is runLLMIteration's return value (final content, iteration
count, error), extended with the trace of provider calls made. -/
structure IterResult where
  finalContent : Str
  iterations : Nat
  err : Option Str
  calls : List IterCall

/-- runLLMIteration from part_004: run the loop; if it exhausted all
iterations without a direct answer, append the terminal user message and
make one final call with nil tools; that call's content (or, if it fails,
the fixed fallback naming the cap) becomes the final answer. -/
def runLLMIteration (responses : Nat → Except Str providers.LLMResponse)
    (toolDefs : List ToolDefinition)
    (execTools : List providers.ToolCall → Nat → List providers.Message)
    (maxIterations : Nat) (messages : List providers.Message) : IterResult :=
  let st := runIterGo responses toolDefs execTools maxIterations
    ⟨messages, 0, [], .exhausted⟩
  match st.outcome with
  | .errOut e => ⟨[], st.iteration, some ("LLM call failed: ".data ++ e), st.calls⟩
  | .direct c => ⟨c, st.iteration, none, st.calls⟩
  | .exhausted =>
    let msgs := st.messages ++ [summaryLimitMessage]
    let callsMade := st.calls ++ [IterCall.mk msgs none]
    match responses st.iteration with
    | .error _ =>
      ⟨iterationLimitFallback maxIterations, st.iteration, none, callsMade⟩
    | .ok resp => ⟨resp.content, st.iteration, none, callsMade⟩

end agent

end Picoclaw

namespace Picoclaw

/-- C10: for every contextWindow ≤ 0, BudgetFromContextWindow behaves as if
the window were 8192 tokens and returns MaxMessages=200,
MaxTotalChars=32000, MaxMessageChars=10666, MaxToolMessageChars=5333 with
the default truncation marker, and the derived budget satisfies Enabled. -/
theorem budgetFromContextWindow_nonpositive_defaults (cw : Int) (h : cw ≤ 0) :
    providers.BudgetFromContextWindow cw =
      { MaxMessages := 200, MaxTotalChars := 32000, MaxMessageChars := 10666,
        MaxToolMessageChars := 5333,
        TruncationMarker := providers.defaultTruncationMarker } ∧
    (providers.BudgetFromContextWindow cw).Enabled := by
  have hbudget : providers.BudgetFromContextWindow cw =
      { MaxMessages := 200, MaxTotalChars := 32000, MaxMessageChars := 10666,
        MaxToolMessageChars := 5333,
        TruncationMarker := providers.defaultTruncationMarker } := by
    unfold providers.BudgetFromContextWindow
    rw [if_pos h]
    decide
  exact ⟨hbudget, by rw [hbudget]; decide⟩

/-- Witness for C10 at the concrete input 0. -/
theorem budgetFromContextWindow_nonpositive_defaults_witness :
    providers.BudgetFromContextWindow 0 =
      { MaxMessages := 200, MaxTotalChars := 32000, MaxMessageChars := 10666,
        MaxToolMessageChars := 5333,
        TruncationMarker := providers.defaultTruncationMarker } ∧
    (providers.BudgetFromContextWindow 0).Enabled :=
  budgetFromContextWindow_nonpositive_defaults 0 (by decide)

/-- C3: with a Retry-After hint present, the scheduled wait does not depend
on the jitter randomness at all, it is at least min(V, retryMaxWait), and
it is at most retryMaxWait. -/
theorem computeRetryWait_retryAfter_bounds (p : providers.RetryConfig)
    (jitterMul jitterMul2 : Int → Int) (attempt : Nat) (V : Int) :
    providers.computeRetryWait p jitterMul attempt V true =
      providers.computeRetryWait p jitterMul2 attempt V true ∧
    min V p.retryMaxWait ≤ providers.computeRetryWait p jitterMul attempt V true ∧
    providers.computeRetryWait p jitterMul attempt V true ≤ p.retryMaxWait := by
  unfold providers.computeRetryWait
  simp only [not_true, false_and, if_false, if_true]
  constructor
  · trivial
  · generalize providers.wrap64 (p.retryBaseWait * providers.wrap64 (2 ^ (attempt - 1))) = w0
    rcases le_total V p.retryMaxWait with hv | hv <;>
      rw [min_def] <;> split_ifs <;> omega

namespace tools

/-- lookupArg after insertArg: the inserted key reads back the inserted
value, every other key is unchanged. -/
theorem lookupArg_insertArg (m : ArgsMap) (k k' : Str) (v : GoValue) :
    lookupArg (insertArg m k v) k' =
      if k' = k then some v else lookupArg m k' := by
  induction m with
  | nil =>
    simp only [insertArg, lookupArg, List.filter_nil, List.nil_append,
      List.find?]
    split_ifs with h
    · simp [h]
    · have : decide (k = k') = false := by
        simp only [decide_eq_false_iff_not]
        exact fun he => h he.symm
      simp [this]
  | cons a m ih =>
    by_cases ha : a.1 = k
    · have hfilter : (a :: m).filter (fun p => !decide (p.1 = k)) =
          m.filter (fun p => !decide (p.1 = k)) := by
        simp [List.filter_cons, ha]
      simp only [insertArg, hfilter]
      have := ih
      simp only [insertArg] at this
      rw [this]
      split_ifs with h
      · rfl
      · have ha' : ¬ a.1 = k' := fun he => h (by rw [← he, ha])
        simp [lookupArg, List.find?, ha']
    · have hfilter : (a :: m).filter (fun p => !decide (p.1 = k)) =
          a :: m.filter (fun p => !decide (p.1 = k)) := by
        simp [List.filter_cons, ha]
      simp only [insertArg, hfilter, List.cons_append]
      by_cases hk' : a.1 = k'
      · have h1 : ¬ k' = k := fun he => ha (by rw [hk', he])
        simp [lookupArg, List.find?, hk', h1]
      · simp only [lookupArg, List.find?]
        have : decide (a.1 = k') = false := by simp [hk']
        rw [this]
        have := ih
        simp only [insertArg, lookupArg] at this ⊢
        exact this

/-- C9: withExecutionContext never mutates the caller's map: with all three
context values empty it returns the original map, and otherwise it returns
a map that reads as the original plus one reserved key per non-empty
value, all other keys unchanged. -/
theorem withExecutionContext_spec (args : ArgsMap) (channel chatID traceID : Str) :
    (channel = [] ∧ chatID = [] ∧ traceID = [] →
      withExecutionContext args channel chatID traceID = args) ∧
    (¬ (channel = [] ∧ chatID = [] ∧ traceID = []) → ∀ k,
      lookupArg (withExecutionContext args channel chatID traceID) k =
        if k = execContextChannelKey ∧ ¬ channel = [] then some (.str channel)
        else if k = execContextChatIDKey ∧ ¬ chatID = [] then some (.str chatID)
        else if k = execContextTraceIDKey ∧ ¬ traceID = [] then some (.str traceID)
        else lookupArg args k) := by
  have hkey12 : ¬ execContextChannelKey = execContextChatIDKey := by decide
  have hkey13 : ¬ execContextChannelKey = execContextTraceIDKey := by decide
  have hkey23 : ¬ execContextChatIDKey = execContextTraceIDKey := by decide
  constructor
  · intro h
    simp [withExecutionContext, h.1, h.2.1, h.2.2]
  · intro hne k
    have hkey21 : ¬ execContextChatIDKey = execContextChannelKey := by decide
    have hkey31 : ¬ execContextTraceIDKey = execContextChannelKey := by decide
    have hkey32 : ¬ execContextTraceIDKey = execContextChatIDKey := by decide
    rw [withExecutionContext, if_neg hne]
    by_cases hc : channel = [] <;> by_cases hch : chatID = [] <;>
      by_cases ht : traceID = [] <;>
      by_cases h1 : k = execContextChannelKey <;>
      by_cases h2 : k = execContextChatIDKey <;>
      by_cases h3 : k = execContextTraceIDKey <;>
      simp [hc, hch, ht, h1, h2, h3, lookupArg_insertArg,
        hkey12, hkey13, hkey23, hkey21, hkey31, hkey32]

/-- Witness for C9 at a concrete map and context. -/
theorem withExecutionContext_spec_witness :
    lookupArg (withExecutionContext [("x".data, GoValue.num 3)] "tg".data [] [])
      execContextChannelKey = some (GoValue.str "tg".data) ∧
    lookupArg (withExecutionContext [("x".data, GoValue.num 3)] "tg".data [] [])
      "x".data = some (GoValue.num 3) := by
  have h := (withExecutionContext_spec [("x".data, GoValue.num 3)]
    "tg".data [] []).2 (by decide)
  constructor
  · rw [h execContextChannelKey]; decide
  · rw [h "x".data]; decide

/-- Entries of a constructed policy's deny set are non-empty (the
constructor skips empty names after normalization). -/
theorem mem_newPolicy_deny_ne_nil (enabled : Bool) (allow deny : List Str)
    (x : Str) (hx : x ∈ (NewToolExecutionPolicy enabled allow deny).Deny) :
    ¬ x = [] := by
  simp only [NewToolExecutionPolicy, List.mem_filter] at hx
  simpa using hx.2

/-- An enabled policy's check reduces to the name normalization followed by
the empty / deny / allow tests, in that order. -/
theorem check_of_enabled (p : ToolExecutionPolicy) (hp : p.Enabled = true)
    (toolName : Str) :
    p.check toolName =
      (if goToLower (goTrimSpace toolName) = [] then
        some "tool name is empty".data
      else if p.Deny.contains (goToLower (goTrimSpace toolName)) then
        some ("tool ".data ++ toolName ++ " is blocked by policy".data)
      else if ¬ p.Allow = [] ∧
          ¬ p.Allow.contains (goToLower (goTrimSpace toolName)) then
        some ("tool ".data ++ toolName ++ " is not allowed by policy".data)
      else none) := by
  simp [ToolExecutionPolicy.check, hp]

/-- C8 (amended): with the policy enabled, a name whose normalized form is
in the deny set is blocked with the "blocked by policy" error even when the
allow set also lists it; and a name whose normalized form is non-empty, not
denied, and absent from a non-empty allow set fails with the "not allowed
by policy" error. -/
theorem policy_check_deny_before_allow (allow deny : List Str) (toolName : Str) :
    ((NewToolExecutionPolicy true allow deny).Deny.contains
        (goToLower (goTrimSpace toolName)) = true →
      (NewToolExecutionPolicy true allow deny).check toolName =
        some ("tool ".data ++ toolName ++ " is blocked by policy".data)) ∧
    (¬ (NewToolExecutionPolicy true allow deny).Allow = [] →
      (NewToolExecutionPolicy true allow deny).Allow.contains
        (goToLower (goTrimSpace toolName)) = false →
      (NewToolExecutionPolicy true allow deny).Deny.contains
        (goToLower (goTrimSpace toolName)) = false →
      ¬ goToLower (goTrimSpace toolName) = [] →
      (NewToolExecutionPolicy true allow deny).check toolName =
        some ("tool ".data ++ toolName ++ " is not allowed by policy".data)) := by
  constructor
  · intro hdeny
    have hmem := List.mem_of_elem_eq_true hdeny
    have hne : ¬ goToLower (goTrimSpace toolName) = [] :=
      mem_newPolicy_deny_ne_nil true allow deny _ hmem
    rw [check_of_enabled _ rfl]
    simp [hne, hmem]
  · intro hallowne hallow hdeny hne
    have hnmemA : goToLower (goTrimSpace toolName) ∉
        (NewToolExecutionPolicy true allow deny).Allow := fun hm => by
      simp only [List.elem_eq_true_of_mem hm] at hallow
      exact absurd hallow (by simp)
    have hnmemD : goToLower (goTrimSpace toolName) ∉
        (NewToolExecutionPolicy true allow deny).Deny := fun hm => by
      simp only [List.elem_eq_true_of_mem hm] at hdeny
      exact absurd hdeny (by simp)
    rw [check_of_enabled _ rfl]
    simp [hne, hnmemD, hnmemA, hallowne]

/-- C8 counterexample: a blank tool name is neither denied nor in the
(non-empty) allow set, yet the check fails with "tool name is empty" rather
than the "not allowed by policy" error the claim requires. -/
theorem policy_check_blank_name_counterexample :
    ¬ (NewToolExecutionPolicy true ["a".data] []).Allow = [] ∧
    (NewToolExecutionPolicy true ["a".data] []).Allow.contains
      (goToLower (goTrimSpace " ".data)) = false ∧
    (NewToolExecutionPolicy true ["a".data] []).Deny.contains
      (goToLower (goTrimSpace " ".data)) = false ∧
    (NewToolExecutionPolicy true ["a".data] []).check " ".data =
      some "tool name is empty".data ∧
    ¬ (NewToolExecutionPolicy true ["a".data] []).check " ".data =
      some ("tool ".data ++ " ".data ++ " is not allowed by policy".data) := by
  decide

/-- Witness for C8 at concrete policies and names. -/
theorem policy_check_deny_before_allow_witness :
    (NewToolExecutionPolicy true ["b".data] ["b".data]).check " B ".data =
      some ("tool ".data ++ " B ".data ++ " is blocked by policy".data) ∧
    (NewToolExecutionPolicy true ["a".data] ["b".data]).check "c".data =
      some ("tool ".data ++ "c".data ++ " is not allowed by policy".data) :=
  ⟨(policy_check_deny_before_allow ["b".data] ["b".data] " B ".data).1
      (by decide),
    (policy_check_deny_before_allow ["a".data] ["b".data] "c".data).2
      (by decide) (by decide) (by decide) (by decide)⟩

/-- Looking up the updated task id after updateTask maps the update over
the previous entry. -/
theorem lookupTask_updateTask (tasks : List (Str × SubagentTask)) (id : Str)
    (f : SubagentTask → SubagentTask) :
    lookupTask (updateTask tasks id f) id = (lookupTask tasks id).map f := by
  induction tasks with
  | nil => rfl
  | cons a rest ih =>
    simp only [updateTask, List.map_cons]
    by_cases ha : a.1 = id
    · rw [if_pos ha]
      simp only [lookupTask]
      rw [List.find?_cons_of_pos _ (by simp [ha]),
        List.find?_cons_of_pos _ (by simp [ha])]
      rfl
    · rw [if_neg ha]
      simp only [lookupTask]
      rw [List.find?_cons_of_neg _ (by simp [ha]),
        List.find?_cons_of_neg _ (by simp [ha])]
      simp only [lookupTask, updateTask] at ih
      exact ih

/-- C7 (amended): Cancel returns TaskNotFound exactly when the id is
unknown; returns NotRunning exactly when the task exists but its status is
not "running" (in particular when it is terminal or already "cancelling")
or its cancel handle is gone; and otherwise marks the task "cancelling" and
invokes its cancel handle. -/
theorem cancel_spec (st : SubagentManagerState) (taskID : Str) :
    ((Cancel st taskID).2 = some SubagentErr.taskNotFound ↔
      lookupTask st.tasks taskID = none) ∧
    ((Cancel st taskID).2 = some SubagentErr.notRunning ↔
      ∃ t, lookupTask st.tasks taskID = some t ∧
        (¬ t.status = "running".data ∨ ¬ st.cancels.contains taskID = true)) ∧
    (∀ t, lookupTask st.tasks taskID = some t →
      t.status = "running".data → st.cancels.contains taskID = true →
      (Cancel st taskID).2 = none ∧
      lookupTask (Cancel st taskID).1.tasks taskID =
        some { t with status := "cancelling".data } ∧
      (Cancel st taskID).1.invoked = st.invoked ++ [taskID]) := by
  cases h : lookupTask st.tasks taskID with
  | none =>
    refine ⟨by simp [Cancel, h], by simp [Cancel, h], ?_⟩
    intro t ht
    exact absurd ht (by simp)
  | some t0 =>
    by_cases hs : t0.status = "running".data
    · by_cases hc : st.cancels.contains taskID = true
      · have hc' : taskID ∈ st.cancels := List.mem_of_elem_eq_true hc
        refine ⟨by simp [Cancel, h, hs, hc'], ?_, ?_⟩
        · constructor
          · intro habs
            simp [Cancel, h, hs, hc'] at habs
          · rintro ⟨t, ht, hbad⟩
            cases ht
            rcases hbad with hbad | hbad
            · exact absurd hs hbad
            · exact absurd hc hbad
        · intro t ht hts htc
          cases ht
          refine ⟨by simp [Cancel, h, hs, hc'], ?_,
            by simp [Cancel, h, hs, hc']⟩
          simp [Cancel, h, hs, hc', lookupTask_updateTask]
      · have hc' : taskID ∉ st.cancels :=
          fun hm => hc (List.elem_eq_true_of_mem hm)
        refine ⟨by simp [Cancel, h, hs, hc'], ?_, ?_⟩
        · constructor
          · intro _
            exact ⟨t0, rfl, Or.inr hc⟩
          · intro _
            simp [Cancel, h, hs, hc']
        · intro t ht hts htc
          cases ht
          exact absurd htc hc
    · refine ⟨by simp [Cancel, h, hs], ?_, ?_⟩
      · constructor
        · intro _
          exact ⟨t0, rfl, Or.inl hs⟩
        · intro _
          simp [Cancel, h, hs]
      · intro t ht hts htc
        cases ht
        exact absurd hts hs

/-- C7 counterexample: after Spawn and a first Cancel, the task's status is
"cancelling", which is not terminal, yet a second Cancel returns the
NotRunning error — so NotRunning is not returned exactly on terminal
status, as the claim states. -/
theorem cancel_cancelling_counterexample :
    (Cancel (Cancel (Spawn ⟨[], [], [], 1⟩ "t".data "l".data "tg".data
        "42".data 0).1 "subagent-1".data).1 "subagent-1".data).2 =
      some SubagentErr.notRunning ∧
    (lookupTask (Cancel (Spawn ⟨[], [], [], 1⟩ "t".data "l".data "tg".data
        "42".data 0).1 "subagent-1".data).1.tasks "subagent-1".data).map
      (fun t => t.status) = some "cancelling".data ∧
    isTerminalStatus "cancelling".data = false := by
  decide

/-- Witness for C7 at the freshly spawned state. -/
theorem cancel_spec_witness :
    (Cancel (Spawn ⟨[], [], [], 1⟩ "t".data "l".data "tg".data "42".data
        0).1 "subagent-1".data).2 = none ∧
    (Cancel (Spawn ⟨[], [], [], 1⟩ "t".data "l".data "tg".data "42".data
        0).1 "subagent-1".data).1.invoked = [] ++ ["subagent-1".data] := by
  have h := (cancel_spec (Spawn ⟨[], [], [], 1⟩ "t".data "l".data "tg".data
    "42".data 0).1 "subagent-1".data).2.2
  have h2 := h ((Spawn ⟨[], [], [], 1⟩ "t".data "l".data "tg".data "42".data
    0).1.tasks.head (by decide)).2 (by decide) (by decide) (by decide)
  exact ⟨h2.1, h2.2.2⟩

/-- Every worker outcome produces a message carrying the original tool-call
id. -/
theorem workerResult_toolCallID (tc : providers.ToolCall) (o : WorkerOutcome) :
    (workerResult tc o).toolCallID = tc.id := by
  cases o <;> rfl

/-- Every worker outcome produces a message with role "tool". -/
theorem workerResult_role (tc : providers.ToolCall) (o : WorkerOutcome) :
    (workerResult tc o).role = "tool".data := by
  cases o <;> rfl

/-- The worker pool produces one result per call. -/
theorem length_executeCallsFrom
    (outcome : Nat → providers.ToolCall → WorkerOutcome) (start : Nat)
    (l : List providers.ToolCall) :
    (executeCallsFrom outcome start l).length = l.length := by
  induction l generalizing start with
  | nil => rfl
  | cons tc rest ih => simp [executeCallsFrom, ih]

/-- The result in slot i is the worker result of call i. -/
theorem get_executeCallsFrom
    (outcome : Nat → providers.ToolCall → WorkerOutcome)
    (l : List providers.ToolCall) (start i : Nat)
    (h1 : i < (executeCallsFrom outcome start l).length)
    (h2 : i < l.length) :
    (executeCallsFrom outcome start l).get ⟨i, h1⟩ =
      workerResult (l.get ⟨i, h2⟩) (outcome (start + i) (l.get ⟨i, h2⟩)) := by
  induction l generalizing start i with
  | nil => exact absurd h2 (by simp)
  | cons tc rest ih =>
    cases i with
    | zero => rfl
    | succ j =>
      have h1' : j < (executeCallsFrom outcome (start + 1) rest).length := by
        simpa [executeCallsFrom] using h1
      have h2' : j < rest.length := by simpa using h2
      have := ih (start + 1) j h1' h2'
      simp only [executeCallsFrom, List.get_cons_succ]
      rw [this]
      have harith : start + 1 + j = start + (j + 1) := by omega
      rw [harith]

/-- The result in slot i of the whole batch is the worker result of call i. -/
theorem get_ExecuteToolCalls (toolCalls : List providers.ToolCall)
    (outcome : Nat → providers.ToolCall → WorkerOutcome) (i : Nat)
    (h1 : i < (ExecuteToolCalls toolCalls outcome).length)
    (h2 : i < toolCalls.length) :
    (ExecuteToolCalls toolCalls outcome).get ⟨i, h1⟩ =
      workerResult (toolCalls.get ⟨i, h2⟩)
        (outcome i (toolCalls.get ⟨i, h2⟩)) := by
  cases toolCalls with
  | nil => exact absurd h2 (by simp)
  | cons tc rest =>
    have h1' : i < (executeCallsFrom outcome 0 (tc :: rest)).length := by
      simpa [ExecuteToolCalls] using h1
    have key := get_executeCallsFrom outcome (tc :: rest) 0 i h1' h2
    rw [Nat.zero_add] at key
    exact key

/-- C1: for every batch and every assignment of worker fates,
ExecuteToolCalls returns exactly one tool-role result per call, the result
at output index i carries the tool-call id of the call at input index i, and
the results do not depend on the order in which workers complete (the
completion order only drives the progress callbacks). -/
theorem executeToolCalls_results_in_input_order
    (toolCalls : List providers.ToolCall)
    (outcome : Nat → providers.ToolCall → WorkerOutcome)
    (completionOrder : List Nat) :
    (ExecuteToolCalls toolCalls outcome).length = toolCalls.length ∧
    (∀ i (h1 : i < (ExecuteToolCalls toolCalls outcome).length)
        (h2 : i < toolCalls.length),
      ((ExecuteToolCalls toolCalls outcome).get ⟨i, h1⟩).toolCallID =
        (toolCalls.get ⟨i, h2⟩).id ∧
      ((ExecuteToolCalls toolCalls outcome).get ⟨i, h1⟩).role = "tool".data) ∧
    (ExecuteToolCallsWithReport toolCalls outcome completionOrder).1 =
      ExecuteToolCalls toolCalls outcome := by
  refine ⟨?_, ?_, rfl⟩
  · cases toolCalls with
    | nil => rfl
    | cons tc rest =>
      simp [ExecuteToolCalls, length_executeCallsFrom]
  · intro i h1 h2
    rw [get_ExecuteToolCalls toolCalls outcome i h1 h2]
    exact ⟨workerResult_toolCallID _ _, workerResult_role _ _⟩

/-- Witness for C1 on a concrete two-call batch with reversed completion
order. -/
theorem executeToolCalls_results_in_input_order_witness :
    (ExecuteToolCalls
      [⟨"tc1".data, "read".data, []⟩, ⟨"tc2".data, "shell".data, []⟩]
      (fun i _ => if i = 0 then WorkerOutcome.execOK "ok".data
        else WorkerOutcome.execError "boom".data)).length = 2 ∧
    ((ExecuteToolCalls
      [⟨"tc1".data, "read".data, []⟩, ⟨"tc2".data, "shell".data, []⟩]
      (fun i _ => if i = 0 then WorkerOutcome.execOK "ok".data
        else WorkerOutcome.execError "boom".data)).get
        ⟨0, by decide⟩).toolCallID = "tc1".data := by
  have h := executeToolCalls_results_in_input_order
    [⟨"tc1".data, "read".data, []⟩, ⟨"tc2".data, "shell".data, []⟩]
    (fun i _ => if i = 0 then WorkerOutcome.execOK "ok".data
      else WorkerOutcome.execError "boom".data) [1, 0]
  exact ⟨h.1, (h.2.1 0 (by decide) (by decide)).1⟩

end tools

namespace providers

/-- Unfolding equation for one step of the retry loop. -/
theorem chatLoop_succ (p : RetryConfig) (attempts : Nat → AttemptStep)
    (fuel attempt : Nat) (lastErr : Str) (calls : Nat) :
    chatLoop p attempts (fuel + 1) attempt lastErr calls =
      match attempts attempt with
      | .ctxCancelledInWait ctxErr =>
        (calls, .error ("context cancelled during retry wait: ".data ++ ctxErr))
      | .transportError e ctxErr =>
        match ctxErr with
        | some _ => (calls + 1, .error ("failed to send request: ".data ++ e))
        | none => chatLoop p attempts fuel (attempt + 1) e (calls + 1)
      | .readError e => chatLoop p attempts fuel (attempt + 1) e (calls + 1)
      | .httpReply status body _ =>
        let errText := apiErrText status body
        if isRetryableHTTPError status body then
          chatLoop p attempts fuel (attempt + 1) errText (calls + 1)
        else (calls + 1, .error errText)
      | .okParse (.error parseErr) =>
        chatLoop p attempts fuel (attempt + 1) parseErr (calls + 1)
      | .okParse (.ok resp) =>
        if shouldRetry resp then
          chatLoop p attempts fuel (attempt + 1)
            (emptyResponseErr resp.finishReason) (calls + 1)
        else (calls + 1, .ok resp) := rfl

/-- When every attempt yields an HTTP 200 whose parsed response is
semantically empty, the retry loop runs through its whole fuel, makes one
HTTP call per unit of fuel, and reports the last empty-response error. -/
theorem chatLoop_all_empty (p : RetryConfig) (attempts : Nat → AttemptStep)
    (resp : Nat → LLMResponse) :
    ∀ n start lastErr calls,
      (∀ k, start ≤ k → k ≤ start + n →
        attempts k = .okParse (.ok (resp k)) ∧ shouldRetry (resp k) = true) →
      chatLoop p attempts (n + 1) start lastErr calls =
        (calls + n + 1, .error (chatFailedErr (p.maxRetries + 1)
          (emptyResponseErr (resp (start + n)).finishReason))) := by
  intro n
  induction n with
  | zero =>
    intro start lastErr calls hall
    have h0 := hall start (le_refl _) (by omega)
    simp [chatLoop, h0.1, h0.2]
  | succ m ih =>
    intro start lastErr calls hall
    have h0 := hall start (le_refl _) (by omega)
    have hrest : ∀ k, start + 1 ≤ k → k ≤ start + 1 + m →
        attempts k = .okParse (.ok (resp k)) ∧ shouldRetry (resp k) = true :=
      fun k hk1 hk2 => hall k (by omega) (by omega)
    have hrec := ih (start + 1) (emptyResponseErr (resp start).finishReason)
      (calls + 1) hrest
    rw [chatLoop_succ, h0.1]
    simp only [h0.2, if_true]
    rw [hrec]
    have e1 : calls + 1 + m + 1 = calls + (m + 1) + 1 := by omega
    have e2 : start + 1 + m = start + (m + 1) := by omega
    rw [e1, e2]

/-- C4: for every run in which all provider replies are HTTP 200 but
semantically empty, Chat makes exactly maxRetries+1 HTTP calls and returns
the error that names the attempt count and states
"empty or error response from LLM (finish_reason=...)". -/
theorem chat_all_empty_exhausts_attempts (p : RetryConfig) (apiBase : Str)
    (attempts : Nat → AttemptStep) (resp : Nat → LLMResponse)
    (hbase : ¬ apiBase = [])
    (hall : ∀ k, k ≤ p.maxRetries →
      attempts k = .okParse (.ok (resp k)) ∧ shouldRetry (resp k) = true) :
    Chat p apiBase attempts =
      (p.maxRetries + 1, .error (chatFailedErr (p.maxRetries + 1)
        (emptyResponseErr (resp p.maxRetries).finishReason))) := by
  rw [Chat, if_neg hbase]
  have h := chatLoop_all_empty p attempts resp p.maxRetries 0 [] 0
    (fun k hk1 hk2 => hall k (by omega))
  rw [h]
  norm_num

/-- Witness for C4: two attempts (maxRetries = 1), both returning an empty
200 response with finish reason "stop". -/
theorem chat_all_empty_exhausts_attempts_witness :
    Chat ⟨1, 1000000000, 60000000000, true⟩ "https://api".data
      (fun _ => .okParse (.ok ⟨[], [], "stop".data, none⟩)) =
      (2, .error (chatFailedErr 2 (emptyResponseErr "stop".data))) := by
  have h := chat_all_empty_exhausts_attempts ⟨1, 1000000000, 60000000000, true⟩
    "https://api".data (fun _ => .okParse (.ok ⟨[], [], "stop".data, none⟩))
    (fun _ => ⟨[], [], "stop".data, none⟩) (by decide)
    (fun k _ => ⟨rfl, rfl⟩)
  exact h

end providers

namespace agent

/-- Unfolding equation for one turn of the iteration loop. -/
theorem runIterGo_succ (responses : Nat → Except Str providers.LLMResponse)
    (toolDefs : List ToolDefinition)
    (execTools : List providers.ToolCall → Nat → List providers.Message)
    (fuel : Nat) (st : LoopState) :
    runIterGo responses toolDefs execTools (fuel + 1) st =
      (let st1 :=
        { st with
          iteration := st.iteration + 1,
          calls := st.calls ++ [IterCall.mk st.messages (some toolDefs)] }
      match responses st.iteration with
      | .error e => { st1 with outcome := .errOut e }
      | .ok resp =>
        if resp.toolCalls = [] then { st1 with outcome := .direct resp.content }
        else
          let assistantMsg := providers.AssistantMessageFromResponse resp
          let toolResults := execTools resp.toolCalls st1.iteration
          runIterGo responses toolDefs execTools fuel
            { st1 with messages := st1.messages ++ [assistantMsg] ++ toolResults }) :=
  rfl

/-- When every response in range requests tool calls, the loop consumes all
of its fuel, stays in the exhausted outcome, performs one provider call per
turn (all with the registry's tool definitions), and advances the iteration
counter by the fuel. -/
theorem runIterGo_all_toolcalls (responses : Nat → Except Str providers.LLMResponse)
    (r : Nat → providers.LLMResponse) (toolDefs : List ToolDefinition)
    (execTools : List providers.ToolCall → Nat → List providers.Message) :
    ∀ fuel st,
      st.outcome = .exhausted →
      (∀ k, st.iteration ≤ k → k < st.iteration + fuel →
        responses k = .ok (r k) ∧ ¬ (r k).toolCalls = []) →
      (runIterGo responses toolDefs execTools fuel st).outcome = .exhausted ∧
      (runIterGo responses toolDefs execTools fuel st).iteration =
        st.iteration + fuel ∧
      (runIterGo responses toolDefs execTools fuel st).calls.length =
        st.calls.length + fuel ∧
      (∀ c ∈ (runIterGo responses toolDefs execTools fuel st).calls,
        c ∈ st.calls ∨ c.tools = some toolDefs) := by
  intro fuel
  induction fuel with
  | zero =>
    intro st hst hall
    exact ⟨hst, by simp [runIterGo], by simp [runIterGo],
      fun c hc => Or.inl (by simpa [runIterGo] using hc)⟩
  | succ m ih =>
    intro st hst hall
    have h0 := hall st.iteration (le_refl _) (by omega)
    rw [runIterGo_succ, h0.1]
    simp only
    rw [if_neg h0.2]
    have key := ih
      { st with
        iteration := st.iteration + 1,
        calls := st.calls ++ [IterCall.mk st.messages (some toolDefs)],
        messages := st.messages ++
          [providers.AssistantMessageFromResponse (r st.iteration)] ++
          execTools (r st.iteration).toolCalls (st.iteration + 1) }
      hst (fun k hk1 hk2 => hall k (by simp at hk1; omega) (by simp at hk2; omega))
    refine ⟨key.1, ?_, ?_, ?_⟩
    · rw [key.2.1]; simp; omega
    · rw [key.2.2.1]; simp; omega
    · intro c hc
      rcases key.2.2.2 c hc with hmem | htools
      · simp only [LoopState.calls] at hmem
        rcases List.mem_append.mp hmem with hmem | hmem
        · exact Or.inl hmem
        · simp at hmem
          subst hmem
          exact Or.inr rfl
      · exact Or.inr htools

/-- C5: if the model requests tool calls in all of the first M turns, the
loop makes exactly one additional provider call with tools = nil, whose
message list ends with the terminal "user" summary instruction; its content
becomes the final answer, and if that summary call fails the final answer
is the fixed fallback naming the iteration cap; no error is returned. -/
theorem runLLMIteration_exhaustion_summary
    (responses : Nat → Except Str providers.LLMResponse)
    (r : Nat → providers.LLMResponse) (toolDefs : List ToolDefinition)
    (execTools : List providers.ToolCall → Nat → List providers.Message)
    (M : Nat) (messages : List providers.Message)
    (hall : ∀ k, k < M → responses k = .ok (r k) ∧ ¬ (r k).toolCalls = []) :
    (runLLMIteration responses toolDefs execTools M messages).iterations = M ∧
    (runLLMIteration responses toolDefs execTools M messages).calls.length =
      M + 1 ∧
    (∃ lastCall,
      (runLLMIteration responses toolDefs execTools M messages).calls.getLast?
        = some lastCall ∧
      lastCall.tools = none ∧
      lastCall.messages.getLast? = some summaryLimitMessage) ∧
    (∀ c ∈ (runLLMIteration responses toolDefs execTools M
        messages).calls.dropLast, c.tools = some toolDefs) ∧
    (∀ resp2, responses M = .ok resp2 →
      (runLLMIteration responses toolDefs execTools M messages).finalContent =
        resp2.content) ∧
    (∀ e, responses M = .error e →
      (runLLMIteration responses toolDefs execTools M messages).finalContent =
        iterationLimitFallback M) ∧
    (runLLMIteration responses toolDefs execTools M messages).err = none := by
  have key := runIterGo_all_toolcalls responses r toolDefs execTools M
    ⟨messages, 0, [], .exhausted⟩ rfl
    (fun k hk1 hk2 => hall k (by simpa using hk2))
  rcases hrun : runIterGo responses toolDefs execTools M
    ⟨messages, 0, [], .exhausted⟩ with ⟨msgs1, iter1, calls1, outc1⟩
  rw [hrun] at key
  obtain ⟨ho, hi, hlen, hmem⟩ := key
  simp only at ho hi hlen
  subst ho
  have hres : runLLMIteration responses toolDefs execTools M messages =
      (match responses iter1 with
      | .error _ =>
        ⟨iterationLimitFallback M, iter1, none,
          calls1 ++ [IterCall.mk (msgs1 ++ [summaryLimitMessage]) none]⟩
      | .ok resp =>
        ⟨resp.content, iter1, none,
          calls1 ++ [IterCall.mk (msgs1 ++ [summaryLimitMessage]) none]⟩) := by
    simp only [runLLMIteration, hrun]
  have hiter : iter1 = M := by simpa using hi
  rcases hM : responses M with e | resp2 <;>
    rw [hiter] at hres <;> rw [hM] at hres <;> rw [hres]
  · refine ⟨rfl, ?_, ?_, ?_, ?_, ?_, rfl⟩
    · simp only [List.length_append, List.length_singleton]
      simpa using hlen
    · exact ⟨IterCall.mk (msgs1 ++ [summaryLimitMessage]) none,
        List.getLast?_concat _, rfl, List.getLast?_concat _⟩
    · intro c hc
      rw [List.dropLast_concat] at hc
      rcases hmem c hc with hmem1 | htools
      · exact absurd hmem1 (by simp)
      · exact htools
    · intro resp2 hresp2
      exact absurd hresp2 (by simp)
    · intro e2 _
      rfl
  · refine ⟨rfl, ?_, ?_, ?_, ?_, ?_, rfl⟩
    · simp only [List.length_append, List.length_singleton]
      simpa using hlen
    · exact ⟨IterCall.mk (msgs1 ++ [summaryLimitMessage]) none,
        List.getLast?_concat _, rfl, List.getLast?_concat _⟩
    · intro c hc
      rw [List.dropLast_concat] at hc
      rcases hmem c hc with hmem1 | htools
      · exact absurd hmem1 (by simp)
      · exact htools
    · intro resp3 hresp3
      cases hresp3
      rfl
    · intro e2 he2
      exact absurd he2 (by simp)

end agent

namespace providers

/-- Truncation is the identity below the limit. -/
theorem truncateWithMarker_of_le (c : Str) (limit : Int) (mk : Str)
    (h0 : 0 < limit) (hle : (c.length : Int) ≤ limit) :
    truncateWithMarker c limit mk = c := by
  simp only [truncateWithMarker]
  rw [if_neg (by omega), if_pos hle]

/-- Truncation above the limit produces content of exactly the limit. -/
theorem length_truncateWithMarker_of_lt (c : Str) (limit : Int) (mk : Str)
    (h0 : 0 < limit) (hlt : limit < (c.length : Int)) :
    ((truncateWithMarker c limit mk).length : Int) = limit := by
  simp only [truncateWithMarker]
  rw [if_neg (by omega), if_neg (by omega)]
  by_cases hbig : ((if mk = [] then defaultTruncationMarker else mk).length : Int)
      ≥ limit
  · rw [if_pos hbig]
    simp only [List.length_take]
    push_cast [Nat.cast_min]
    omega
  · rw [if_neg hbig]
    simp only [List.length_append, List.length_take]
    push_cast [Nat.cast_min]
    omega

/-- Clipping never changes a message's role. -/
theorem clipOne_role (b : MessageBudget) (mk : Str) (m : Message) :
    (clipOne b mk m).role = m.role := by
  simp only [clipOne]
  split_ifs <;> rfl

/-- The effective limit only depends on the role. -/
theorem effectiveLimit_of_role (b : MessageBudget) {m m' : Message}
    (h : m.role = m'.role) : effectiveLimit b m = effectiveLimit b m' := by
  simp only [effectiveLimit, h]

/-- A clipped message fits its effective limit. -/
theorem clipReady_clipOne (b : MessageBudget) (mk : Str) (m : Message) :
    ClipReady b (clipOne b mk m) := by
  have heff : effectiveLimit b (clipOne b mk m) = effectiveLimit b m :=
    effectiveLimit_of_role b (clipOne_role b mk m)
  unfold ClipReady
  rw [heff]
  by_cases h : 0 < effectiveLimit b m ∧
      effectiveLimit b m < (m.content.length : Int)
  · right
    rw [clipOne, if_pos h]
    exact le_of_eq (length_truncateWithMarker_of_lt m.content
      (effectiveLimit b m) mk h.1 h.2)
  · rw [clipOne, if_neg h]
    omega

/-- Clipping a message that already fits is the identity. -/
theorem clipOne_of_clipReady (b : MessageBudget) (mk : Str) (m : Message)
    (h : ClipReady b m) : clipOne b mk m = m := by
  unfold ClipReady at h
  rw [clipOne, if_neg (by omega)]

/-- The clipping pass preserves the role list. -/
theorem rolesOf_clipPass (b : MessageBudget) (mk : Str) (ms : List Message) :
    rolesOf (clipPass b mk ms) = rolesOf ms := by
  simp only [rolesOf, clipPass, List.map_map]
  exact List.map_congr_left (fun m _ => clipOne_role b mk m)

/-- Every message out of the clipping pass fits its effective limit. -/
theorem clipReady_of_mem_clipPass (b : MessageBudget) (mk : Str)
    (ms : List Message) : ∀ m ∈ clipPass b mk ms, ClipReady b m := by
  intro m hm
  rw [clipPass, List.mem_map] at hm
  obtain ⟨m0, _, rfl⟩ := hm
  exact clipReady_clipOne b mk m0

/-- The clipping pass is the identity on messages that all fit. -/
theorem clipPass_of_clipReady (b : MessageBudget) (mk : Str)
    (ms : List Message) (h : ∀ m ∈ ms, ClipReady b m) :
    clipPass b mk ms = ms := by
  induction ms with
  | nil => rfl
  | cons m rest ih =>
    rw [clipPass, List.map_cons,
      clipOne_of_clipReady b mk m (h m (List.mem_cons_self _ _))]
    have := ih (fun x hx => h x (List.mem_cons_of_mem _ hx))
    rw [clipPass] at this
    rw [this]

/-- Existence of a non-system message only depends on the role list. -/
theorem exists_nonSys_iff_roles (ms : List Message) :
    (∃ m ∈ ms, ¬ m.role = sysRole) ↔
      ∃ rr ∈ rolesOf ms, ¬ rr = sysRole := by
  simp [rolesOf]

/-- The system-message count only depends on the role list. -/
theorem countSys_eq_roles (ms : List Message) :
    countSys ms = ((rolesOf ms).filter (fun rr => decide (rr = sysRole))).length := by
  unfold countSys rolesOf
  rw [List.filter_map, List.length_map]
  rfl

/-- rolesOf distributes over cons. -/
theorem rolesOf_cons (m : Message) (l : List Message) :
    rolesOf (m :: l) = m.role :: rolesOf l := rfl

/-- rolesOf commutes with reversal. -/
theorem rolesOf_reverse (l : List Message) :
    rolesOf l.reverse = (rolesOf l).reverse := by
  simp [rolesOf]

/-- A kept message under a true flag heads the selection. -/
theorem keptOfFlags_cons_true (m : Message) (rev : List Message)
    (flags : List Bool) :
    keptOfFlags (m :: rev) (true :: flags) = m :: keptOfFlags rev flags := by
  simp [keptOfFlags]

/-- A message under a false flag is dropped from the selection. -/
theorem keptOfFlags_cons_false (m : Message) (rev : List Message)
    (flags : List Bool) :
    keptOfFlags (m :: rev) (false :: flags) = keptOfFlags rev flags := by
  simp [keptOfFlags]

/-- Selected messages come from the underlying list. -/
theorem mem_of_mem_keptOfFlags {rev : List Message} {flags : List Bool}
    {m : Message} (h : m ∈ keptOfFlags rev flags) : m ∈ rev := by
  unfold keptOfFlags at h
  rw [List.mem_map] at h
  obtain ⟨p, hp, rfl⟩ := h
  exact (List.of_mem_zip (List.mem_filter.mp hp).1).1

/-- With at least one slot, the count-cap selection keeps some non-system
message whenever one exists. -/
theorem exists_nonSys_keepLatestFlags :
    ∀ (rev : List Message) (slots : Nat), 0 < slots →
      (∃ m ∈ rev, ¬ m.role = sysRole) →
      ∃ m ∈ keptOfFlags rev (keepLatestFlags rev slots), ¬ m.role = sysRole := by
  intro rev
  induction rev with
  | nil =>
    rintro slots hs ⟨m, hm, _⟩
    cases hm
  | cons m rest ih =>
    intro slots hs hex
    by_cases hrole : m.role = sysRole
    · rw [show keepLatestFlags (m :: rest) slots =
          true :: keepLatestFlags rest slots by
        simp [keepLatestFlags, hrole], keptOfFlags_cons_true]
      obtain ⟨m0, hm0, hr0⟩ := hex
      rcases List.mem_cons.mp hm0 with rfl | hm0r
      · exact absurd hrole hr0
      · obtain ⟨w, hw, hwr⟩ := ih slots hs ⟨m0, hm0r, hr0⟩
        exact ⟨w, List.mem_cons_of_mem _ hw, hwr⟩
    · rw [show keepLatestFlags (m :: rest) slots =
          true :: keepLatestFlags rest (slots - 1) by
        simp [keepLatestFlags, hrole, hs], keptOfFlags_cons_true]
      exact ⟨m, List.mem_cons_self _ _, hrole⟩

/-- Messages surviving keepSystemAndLatest come from the input. -/
theorem mem_of_mem_keepSystemAndLatest {ms : List Message} {mm : Int}
    {m : Message} (h : m ∈ keepSystemAndLatest ms mm) : m ∈ ms := by
  simp only [keepSystemAndLatest] at h
  split_ifs at h
  · exact h
  · exact List.mem_of_mem_filter (List.mem_of_mem_take h)
  · rw [List.mem_reverse] at h
    exact List.mem_reverse.mp (mem_of_mem_keptOfFlags h)

/-- When the input has fewer system messages than the cap,
keepSystemAndLatest keeps at least one non-system message. -/
theorem exists_nonSys_keepSystemAndLatest (ms : List Message) (mm : Int)
    (hcap : (countSys ms : Int) < mm)
    (hex : ∃ m ∈ ms, ¬ m.role = sysRole) :
    ∃ m ∈ keepSystemAndLatest ms mm, ¬ m.role = sysRole := by
  unfold countSys at hcap
  simp only [keepSystemAndLatest]
  split_ifs with h1 h2
  · exact hex
  · omega
  · obtain ⟨m0, hm0, hr0⟩ := hex
    have hslots : 0 <
        mm.toNat - (ms.filter (fun m => decide (m.role = sysRole))).length := by
      omega
    obtain ⟨w, hw, hwr⟩ := exists_nonSys_keepLatestFlags ms.reverse _ hslots
      ⟨m0, List.mem_reverse.mpr hm0, hr0⟩
    exact ⟨w, List.mem_reverse.mpr hw, hwr⟩

/-- greedyFlags yields one flag per message. -/
theorem length_greedyFlags :
    ∀ (rev : List Message) (remaining : Nat),
      (greedyFlags rev remaining).length = rev.length := by
  intro rev
  induction rev with
  | nil => intro remaining; rfl
  | cons m rest ih =>
    intro remaining
    simp only [greedyFlags]
    split_ifs <;> simp [ih]

/-- If some non-system message was selected, the char-cap selection keeps a
non-system message. -/
theorem exists_nonSys_keptOfFlags_of_selected {rev : List Message}
    {flags : List Bool} (h : noneSelected rev flags = false) :
    ∃ m ∈ keptOfFlags rev flags, ¬ m.role = sysRole := by
  unfold noneSelected at h
  rw [List.all_eq_false] at h
  obtain ⟨p, hp, hfalse⟩ := h
  simp only [Bool.not_eq_true, Bool.or_eq_false_iff, Bool.not_eq_false,
    decide_eq_false_iff_not] at hfalse
  refine ⟨p.1, ?_, hfalse.1⟩
  unfold keptOfFlags
  rw [List.mem_map]
  exact ⟨p, List.mem_filter.mpr ⟨hp, by simpa using hfalse.2⟩, rfl⟩

/-- Force-keeping the newest non-system message keeps a non-system message
whenever one exists. -/
theorem exists_nonSys_keptOfFlags_forceFirst :
    ∀ (rev : List Message) (flags : List Bool),
      flags.length = rev.length →
      (∃ m ∈ rev, ¬ m.role = sysRole) →
      ∃ m ∈ keptOfFlags rev (forceFirstNonSystem rev flags),
        ¬ m.role = sysRole := by
  intro rev
  induction rev with
  | nil =>
    rintro flags _ ⟨m, hm, _⟩
    cases hm
  | cons m rest ih =>
    intro flags hlen hex
    cases flags with
    | nil => simp at hlen
    | cons f fs =>
      by_cases hrole : m.role = sysRole
      · rw [show forceFirstNonSystem (m :: rest) (f :: fs) =
            f :: forceFirstNonSystem rest fs by
          simp [forceFirstNonSystem, hrole]]
        obtain ⟨m0, hm0, hr0⟩ := hex
        rcases List.mem_cons.mp hm0 with rfl | hm0r
        · exact absurd hrole hr0
        · obtain ⟨w, hw, hwr⟩ := ih fs (by simpa using hlen) ⟨m0, hm0r, hr0⟩
          cases f
          · rw [keptOfFlags_cons_false]
            exact ⟨w, hw, hwr⟩
          · rw [keptOfFlags_cons_true]
            exact ⟨w, List.mem_cons_of_mem _ hw, hwr⟩
      · rw [show forceFirstNonSystem (m :: rest) (f :: fs) = true :: fs by
          simp [forceFirstNonSystem, hrole], keptOfFlags_cons_true]
        exact ⟨m, List.mem_cons_self _ _, hrole⟩

/-- keepWithinTotalChars keeps at least one non-system message whenever the
input has one. -/
theorem exists_nonSys_keepWithinTotalChars (ms : List Message) (mt : Int)
    (hex : ∃ m ∈ ms, ¬ m.role = sysRole) :
    ∃ m ∈ keepWithinTotalChars ms mt, ¬ m.role = sysRole := by
  have hany : ms.any (fun m => !decide (m.role = sysRole)) = true := by
    rw [List.any_eq_true]
    obtain ⟨m0, hm0, hr0⟩ := hex
    exact ⟨m0, hm0, by simpa using hr0⟩
  simp only [keepWithinTotalChars]
  split_ifs with h1 h2
  · exact hex
  · obtain ⟨m0, hm0, hr0⟩ := hex
    obtain ⟨w, hw, hwr⟩ := exists_nonSys_keptOfFlags_forceFirst ms.reverse
      (greedyFlags ms.reverse
        ((mt - (sumMessageChars
          (List.filter (fun m => decide (m.role = sysRole)) ms) : Int)).toNat))
      (by rw [length_greedyFlags]) ⟨m0, List.mem_reverse.mpr hm0, hr0⟩
    exact ⟨w, List.mem_reverse.mpr hw, hwr⟩
  · have hns : noneSelected ms.reverse
        (greedyFlags ms.reverse
          ((mt - (sumMessageChars
            (List.filter (fun m => decide (m.role = sysRole)) ms) : Int)).toNat))
        = false := by
      by_contra hcon
      rw [Bool.not_eq_false] at hcon
      exact h2 ⟨hcon, hany⟩
    obtain ⟨w, hw, hwr⟩ := exists_nonSys_keptOfFlags_of_selected hns
    exact ⟨w, List.mem_reverse.mpr hw, hwr⟩

/-- The final-fit truncation keeps the role of the message it modifies. -/
theorem trimMessage_role (ov : Int) (mk : Str) (m : Message) :
    (trimMessage ov mk m).role = m.role := by
  simp only [trimMessage]
  split_ifs <;> rfl

/-- The final-fit pass preserves the role list. -/
theorem rolesOf_trimFromEnd (ov : Int) (mk : Str) :
    ∀ l : List Message, rolesOf (trimFromEnd ov mk l).1 = rolesOf l := by
  intro l
  induction l with
  | nil => rfl
  | cons m rest ih =>
    simp only [trimFromEnd]
    split_ifs with h1 h2
    · simp only [rolesOf_cons]
      rw [ih]
    · simp [rolesOf_cons, trimMessage_role]
    · rfl

/-- The count-cap step keeps a non-system message when the input holds
fewer system messages than the cap (or the cap is off). -/
theorem exists_nonSys_budgetStep2 (b : MessageBudget) (ms : List Message)
    (hcap : b.MaxMessages ≤ 0 ∨ (countSys ms : Int) < b.MaxMessages)
    (hex : ∃ m ∈ ms, ¬ m.role = sysRole) :
    ∃ m ∈ budgetStep2 b ms, ¬ m.role = sysRole := by
  unfold budgetStep2
  split_ifs with h
  · refine exists_nonSys_keepSystemAndLatest ms b.MaxMessages ?_ hex
    rcases hcap with hc | hc
    · omega
    · exact hc
  · exact hex

/-- The char-cap step keeps a non-system message whenever the input has
one. -/
theorem exists_nonSys_budgetStep3 (b : MessageBudget) (mk : Str)
    (ms : List Message) (hex : ∃ m ∈ ms, ¬ m.role = sysRole) :
    ∃ m ∈ (budgetStep3 b mk ms).1, ¬ m.role = sysRole := by
  simp only [budgetStep3]
  split_ifs with h1 h2
  · have hnext := exists_nonSys_keepWithinTotalChars ms b.MaxTotalChars hex
    rw [exists_nonSys_iff_roles, rolesOf_reverse, rolesOf_trimFromEnd,
      rolesOf_reverse, List.reverse_reverse, ← exists_nonSys_iff_roles]
    exact hnext
  · exact exists_nonSys_keepWithinTotalChars ms b.MaxTotalChars hex
  · exact hex

/-- C2 (amended): for every enabled budget and every input with at least
one non-system message, the output of ApplyMessageBudget keeps at least one
non-system message, provided the message-count cap is off or the input has
fewer system messages than that cap. -/
theorem applyMessageBudget_keeps_nonSystem (messages : List Message)
    (budget : MessageBudget) (hen : budget.Enabled)
    (hex : ∃ m ∈ messages, ¬ m.role = sysRole)
    (hcap : budget.MaxMessages ≤ 0 ∨
      (countSys messages : Int) < budget.MaxMessages) :
    ∃ m ∈ (ApplyMessageBudget messages budget).1, ¬ m.role = sysRole := by
  by_cases h0 : messages.length = 0 ∨ ¬ budget.Enabled
  · simp only [ApplyMessageBudget]
    rw [if_pos h0]
    exact hex
  · simp only [ApplyMessageBudget]
    rw [if_neg h0]
    apply exists_nonSys_budgetStep3
    apply exists_nonSys_budgetStep2
    · rcases hcap with hc | hc
      · exact Or.inl hc
      · right
        rw [countSys_eq_roles, rolesOf_clipPass, ← countSys_eq_roles]
        exact hc
    · rw [exists_nonSys_iff_roles, rolesOf_clipPass, ← exists_nonSys_iff_roles]
      exact hex

/-- C2 counterexample: with the count cap at 2 and two system messages
before a user message, the budget is enabled and the input has a non-system
message, yet every message of the output is a system message. -/
theorem applyMessageBudget_drops_all_nonSystem_counterexample :
    (MessageBudget.mk 2 0 0 0 []).Enabled ∧
    (∃ m ∈ [Message.mk "system".data "s".data [] [],
            Message.mk "system".data "t".data [] [],
            Message.mk "user".data "u".data [] []], ¬ m.role = sysRole) ∧
    ∀ m ∈ (ApplyMessageBudget
        [Message.mk "system".data "s".data [] [],
         Message.mk "system".data "t".data [] [],
         Message.mk "user".data "u".data [] []]
        (MessageBudget.mk 2 0 0 0 [])).1, m.role = sysRole := by
  decide

/-- Witness for C2 (amended) at a concrete system+user history. -/
theorem applyMessageBudget_keeps_nonSystem_witness :
    ∃ m ∈ (ApplyMessageBudget
        [Message.mk "system".data "s".data [] [],
         Message.mk "user".data "hello".data [] []]
        (MessageBudget.mk 2 0 0 0 [])).1, ¬ m.role = sysRole :=
  applyMessageBudget_keeps_nonSystem
    [Message.mk "system".data "s".data [] [],
     Message.mk "user".data "hello".data [] []]
    (MessageBudget.mk 2 0 0 0 []) (by decide) (by decide) (by decide)

/-- Character sums add over concatenation. -/
theorem sumMessageChars_append (a b : List Message) :
    sumMessageChars (a ++ b) = sumMessageChars a + sumMessageChars b := by
  simp [sumMessageChars]

/-- Character sums are reversal-invariant. -/
theorem sumMessageChars_reverse (l : List Message) :
    sumMessageChars l.reverse = sumMessageChars l := by
  simp [sumMessageChars, List.sum_reverse]

/-- Character sum of a cons. -/
theorem sumMessageChars_cons (m : Message) (l : List Message) :
    sumMessageChars (m :: l) = m.content.length + sumMessageChars l := by
  simp [sumMessageChars]

/-- System chars of a system-headed cons. -/
theorem totalSys_cons_sys {m : Message} (l : List Message)
    (h : m.role = sysRole) :
    totalSys (m :: l) = m.content.length + totalSys l := by
  simp [totalSys, List.filter_cons, h, sumMessageChars]

/-- System chars skip a non-system head. -/
theorem totalSys_cons_nonsys {m : Message} (l : List Message)
    (h : ¬ m.role = sysRole) : totalSys (m :: l) = totalSys l := by
  simp [totalSys, List.filter_cons, h]

/-- Non-system chars skip a system head. -/
theorem sumNonSys_cons_sys {m : Message} (l : List Message)
    (h : m.role = sysRole) : sumNonSys (m :: l) = sumNonSys l := by
  simp [sumNonSys, List.filter_cons, h]

/-- Non-system chars of a non-system-headed cons. -/
theorem sumNonSys_cons_nonsys {m : Message} (l : List Message)
    (h : ¬ m.role = sysRole) :
    sumNonSys (m :: l) = m.content.length + sumNonSys l := by
  simp [sumNonSys, List.filter_cons, h, sumMessageChars]

/-- A character sum splits into its system and non-system parts. -/
theorem sumMessageChars_split (l : List Message) :
    sumMessageChars l = totalSys l + sumNonSys l := by
  induction l with
  | nil => rfl
  | cons m rest ih =>
    by_cases h : m.role = sysRole
    · rw [sumMessageChars_cons, totalSys_cons_sys rest h,
        sumNonSys_cons_sys rest h]
      omega
    · rw [sumMessageChars_cons, totalSys_cons_nonsys rest h,
        sumNonSys_cons_nonsys rest h]
      omega

/-- System chars are reversal-invariant. -/
theorem totalSys_reverse (l : List Message) :
    totalSys l.reverse = totalSys l := by
  simp [totalSys, List.filter_reverse, sumMessageChars_reverse]

/-- Non-system chars are reversal-invariant. -/
theorem sumNonSys_reverse (l : List Message) :
    sumNonSys l.reverse = sumNonSys l := by
  simp [sumNonSys, List.filter_reverse, sumMessageChars_reverse]

/-- totalSys only depends on the system sublist. -/
theorem totalSys_eq_of_filter_eq {a b : List Message}
    (h : a.filter (fun m => decide (m.role = sysRole)) =
      b.filter (fun m => decide (m.role = sysRole))) :
    totalSys a = totalSys b := by
  simp [totalSys, h]

/-- forceFirstNonSystem keeps the flag-list length. -/
theorem length_forceFirstNonSystem :
    ∀ (rev : List Message) (flags : List Bool),
      (forceFirstNonSystem rev flags).length = flags.length := by
  intro rev
  induction rev with
  | nil => intro flags; cases flags <;> rfl
  | cons m rest ih =>
    intro flags
    cases flags with
    | nil => rfl
    | cons f fs =>
      by_cases h : m.role = sysRole
      · simp [forceFirstNonSystem, h, ih]
      · simp [forceFirstNonSystem, h]

/-- Selection distributes over append when the flag lists line up. -/
theorem keptOfFlags_append :
    ∀ (l1 : List Message) (f1 : List Bool) (l2 : List Message)
      (f2 : List Bool), f1.length = l1.length →
      keptOfFlags (l1 ++ l2) (f1 ++ f2) =
        keptOfFlags l1 f1 ++ keptOfFlags l2 f2 := by
  intro l1
  induction l1 with
  | nil =>
    intro f1 l2 f2 hlen
    rw [List.length_nil, List.length_eq_zero] at hlen
    subst hlen
    rfl
  | cons m rest ih =>
    intro f1 l2 f2 hlen
    cases f1 with
    | nil => simp at hlen
    | cons f fs =>
      cases f
      · rw [List.cons_append, List.cons_append, keptOfFlags_cons_false,
          keptOfFlags_cons_false, ih fs l2 f2 (by simpa using hlen)]
      · rw [List.cons_append, List.cons_append, keptOfFlags_cons_true,
          keptOfFlags_cons_true, ih fs l2 f2 (by simpa using hlen),
          List.cons_append]

/-- Selecting everything is the identity. -/
theorem keptOfFlags_replicate_true (l : List Message) :
    keptOfFlags l (List.replicate l.length true) = l := by
  induction l with
  | nil => rfl
  | cons m rest ih =>
    rw [List.length_cons, List.replicate_succ, keptOfFlags_cons_true, ih]

/-- The greedy scan marks an all-system prefix true without consuming
budget. -/
theorem greedyFlags_append_sys :
    ∀ (p1 l2 : List Message) (rem : Nat), (∀ m ∈ p1, m.role = sysRole) →
      greedyFlags (p1 ++ l2) rem =
        List.replicate p1.length true ++ greedyFlags l2 rem := by
  intro p1
  induction p1 with
  | nil => intro l2 rem _; rfl
  | cons m rest ih =>
    intro l2 rem hsys
    rw [List.cons_append]
    rw [show greedyFlags (m :: (rest ++ l2)) rem =
        true :: greedyFlags (rest ++ l2) rem by
      simp [greedyFlags, hsys m (List.mem_cons_self _ _)]]
    rw [ih l2 rem (fun x hx => hsys x (List.mem_cons_of_mem _ hx)),
      List.length_cons, List.replicate_succ, List.cons_append]

/-- The greedy scan always flags system messages. -/
theorem sysFlagsTrue_greedyFlags :
    ∀ (rev : List Message) (rem : Nat),
      SysFlagsTrue rev (greedyFlags rev rem) := by
  intro rev
  induction rev with
  | nil => intro rem p hp; cases hp
  | cons m rest ih =>
    intro rem p hp hsys
    by_cases h : m.role = sysRole
    · rw [show greedyFlags (m :: rest) rem = true :: greedyFlags rest rem by
        simp [greedyFlags, h]] at hp
      rcases List.mem_cons.mp hp with rfl | hp2
      · rfl
      · exact ih rem p hp2 hsys
    · simp only [greedyFlags] at hp
      rw [if_neg h] at hp
      split_ifs at hp with hfit
      · rcases List.mem_cons.mp hp with rfl | hp2
        · rfl
        · exact ih _ p hp2 hsys
      · rcases List.mem_cons.mp hp with rfl | hp2
        · exact absurd hsys h
        · exact ih rem p hp2 hsys

/-- Forcing the newest non-system flag keeps system flags set. -/
theorem sysFlagsTrue_forceFirst :
    ∀ (rev : List Message) (flags : List Bool), SysFlagsTrue rev flags →
      SysFlagsTrue rev (forceFirstNonSystem rev flags) := by
  intro rev
  induction rev with
  | nil => intro flags _ p hp; cases hp
  | cons m rest ih =>
    intro flags hsf p hp hsys
    cases flags with
    | nil => cases hp
    | cons f fs =>
      by_cases h : m.role = sysRole
      · rw [show forceFirstNonSystem (m :: rest) (f :: fs) =
            f :: forceFirstNonSystem rest fs by
          simp [forceFirstNonSystem, h]] at hp
        rcases List.mem_cons.mp hp with rfl | hp2
        · exact hsf (m, f) (List.mem_cons_self _ _) hsys
        · exact ih fs (fun q hq hq2 => hsf q (List.mem_cons_of_mem _ hq) hq2)
            p hp2 hsys
      · rw [show forceFirstNonSystem (m :: rest) (f :: fs) = true :: fs by
          simp [forceFirstNonSystem, h]] at hp
        rcases List.mem_cons.mp hp with rfl | hp2
        · rfl
        · exact hsf p (List.mem_cons_of_mem _ hp2) hsys

/-- Selection preserves the system sublist when system flags are set. -/
theorem filter_sys_keptOfFlags :
    ∀ (rev : List Message) (flags : List Bool),
      flags.length = rev.length → SysFlagsTrue rev flags →
      (keptOfFlags rev flags).filter (fun m => decide (m.role = sysRole)) =
        rev.filter (fun m => decide (m.role = sysRole)) := by
  intro rev
  induction rev with
  | nil =>
    intro flags hlen _
    rw [List.length_nil, List.length_eq_zero] at hlen
    subst hlen
    rfl
  | cons m rest ih =>
    intro flags hlen hsf
    cases flags with
    | nil => simp at hlen
    | cons f fs =>
      have htail : SysFlagsTrue rest fs :=
        fun q hq hq2 => hsf q (List.mem_cons_of_mem _ hq) hq2
      by_cases h : m.role = sysRole
      · have hf : f = true := hsf (m, f) (List.mem_cons_self _ _) h
        subst hf
        rw [keptOfFlags_cons_true]
        simp [List.filter_cons, h, ih fs (by simpa using hlen) htail]
      · cases f
        · rw [keptOfFlags_cons_false, ih fs (by simpa using hlen) htail]
          simp [List.filter_cons, h]
        · rw [keptOfFlags_cons_true]
          simp [List.filter_cons, h, ih fs (by simpa using hlen) htail]

/-- When no non-system message is selected, the selection is exactly the
system sublist. -/
theorem keptOfFlags_of_noneSelected :
    ∀ (rev : List Message) (flags : List Bool),
      flags.length = rev.length → SysFlagsTrue rev flags →
      noneSelected rev flags = true →
      keptOfFlags rev flags =
        rev.filter (fun m => decide (m.role = sysRole)) := by
  intro rev
  induction rev with
  | nil =>
    intro flags hlen _ _
    rw [List.length_nil, List.length_eq_zero] at hlen
    subst hlen
    rfl
  | cons m rest ih =>
    intro flags hlen hsf hns
    cases flags with
    | nil => simp at hlen
    | cons f fs =>
      have htail : SysFlagsTrue rest fs :=
        fun q hq hq2 => hsf q (List.mem_cons_of_mem _ hq) hq2
      have hnstail : noneSelected rest fs = true := by
        unfold noneSelected at hns ⊢
        rw [show (m :: rest).zip (f :: fs) = (m, f) :: rest.zip fs from rfl,
          List.all_cons, Bool.and_eq_true] at hns
        exact hns.2
      by_cases h : m.role = sysRole
      · have hf : f = true := hsf (m, f) (List.mem_cons_self _ _) h
        subst hf
        rw [keptOfFlags_cons_true, ih fs (by simpa using hlen) htail hnstail]
        simp [List.filter_cons, h]
      · have hf : f = false := by
          unfold noneSelected at hns
          rw [show (m :: rest).zip (f :: fs) = (m, f) :: rest.zip fs from rfl,
            List.all_cons, Bool.and_eq_true] at hns
          have := hns.1
          simp only [Bool.or_eq_true, decide_eq_true_eq] at this
          rcases this with hbad | hbad
          · exact absurd hbad h
          · simpa using hbad
        subst hf
        rw [keptOfFlags_cons_false, ih fs (by simpa using hlen) htail hnstail]
        simp [List.filter_cons, h]

/-- The greedy selection's non-system characters fit the remaining budget. -/
theorem sumNonSys_keptOfFlags_greedy :
    ∀ (rev : List Message) (rem : Nat),
      sumNonSys (keptOfFlags rev (greedyFlags rev rem)) ≤ rem := by
  intro rev
  induction rev with
  | nil => intro rem; simp [keptOfFlags, sumNonSys, sumMessageChars]
  | cons m rest ih =>
    intro rem
    by_cases h : m.role = sysRole
    · rw [show greedyFlags (m :: rest) rem = true :: greedyFlags rest rem by
        simp [greedyFlags, h], keptOfFlags_cons_true, sumNonSys_cons_sys _ h]
      exact ih rem
    · by_cases hfit : m.content.length ≤ rem
      · rw [show greedyFlags (m :: rest) rem =
            true :: greedyFlags rest (rem - m.content.length) by
          simp [greedyFlags, h, hfit], keptOfFlags_cons_true,
          sumNonSys_cons_nonsys _ h]
        have := ih (rem - m.content.length)
        omega
      · rw [show greedyFlags (m :: rest) rem =
            false :: greedyFlags rest rem by
          simp [greedyFlags, h, hfit], keptOfFlags_cons_false]
        exact ih rem

/-- Any list with a non-system member splits at its first non-system
message, with an all-system prefix. -/
theorem exists_first_nonSys :
    ∀ rev : List Message, (∃ m ∈ rev, ¬ m.role = sysRole) →
      ∃ p1 L p2, rev = p1 ++ L :: p2 ∧ (∀ m ∈ p1, m.role = sysRole) ∧
        ¬ L.role = sysRole := by
  intro rev
  induction rev with
  | nil => rintro ⟨m, hm, _⟩; cases hm
  | cons m rest ih =>
    intro hex
    by_cases h : m.role = sysRole
    · obtain ⟨m0, hm0, hr0⟩ := hex
      rcases List.mem_cons.mp hm0 with rfl | hm0r
      · exact absurd h hr0
      · obtain ⟨p1, L, p2, heq, hp1, hL⟩ := ih ⟨m0, hm0r, hr0⟩
        refine ⟨m :: p1, L, p2, by rw [heq, List.cons_append], ?_, hL⟩
        intro x hx
        rcases List.mem_cons.mp hx with rfl | hx2
        · exact h
        · exact hp1 x hx2
    · exact ⟨[], m, rest, rfl, by simp, h⟩

/-- noneSelected splits across an aligned append. -/
theorem noneSelected_append (l1 : List Message) (f1 : List Bool)
    (l2 : List Message) (f2 : List Bool) (hlen : l1.length = f1.length) :
    noneSelected (l1 ++ l2) (f1 ++ f2) =
      (noneSelected l1 f1 && noneSelected l2 f2) := by
  unfold noneSelected
  rw [List.zip_append hlen, List.all_append]

/-- noneSelected on a cons. -/
theorem noneSelected_cons (m : Message) (f : Bool) (rest : List Message)
    (fs : List Bool) :
    noneSelected (m :: rest) (f :: fs) =
      ((decide (m.role = sysRole) || !f) && noneSelected rest fs) := by
  unfold noneSelected
  rw [show (m :: rest).zip (f :: fs) = (m, f) :: rest.zip fs from rfl,
    List.all_cons]

/-- The final-fit target is at least one character. -/
theorem one_le_trimTarget (ov : Int) (m : Message) : 1 ≤ trimTarget ov m := by
  simp only [trimTarget]
  split_ifs <;> omega

/-- Final-fit truncation never lengthens a message. -/
theorem length_trimMessage_le (ov : Int) (mk : Str) (m : Message) :
    (trimMessage ov mk m).content.length ≤ m.content.length := by
  unfold trimMessage
  split_ifs with h
  · have h0 : 0 < trimTarget ov m := by
      have := one_le_trimTarget ov m
      omega
    have := length_truncateWithMarker_of_lt m.content (trimTarget ov m) mk h0 h
    simp only
    omega
  · exact le_refl _

/-- Final fit keeps the role of the truncated message. -/
theorem trimMessage_role_eq (ov : Int) (mk : Str) (m : Message) :
    (trimMessage ov mk m).role = m.role := trimMessage_role ov mk m

/-- The final fit never changes the number of messages. -/
theorem length_trimFromEnd (ov : Int) (mk : Str) :
    ∀ l : List Message, (trimFromEnd ov mk l).1.length = l.length := by
  intro l
  induction l with
  | nil => rfl
  | cons m rest ih =>
    simp only [trimFromEnd]
    split_ifs <;> simp [ih]

/-- When every non-system message is empty, the final fit is a no-op. -/
theorem trimFromEnd_of_allZero (ov : Int) (mk : Str) :
    ∀ l : List Message,
      (∀ m ∈ l, ¬ m.role = sysRole → m.content.length = 0) →
      trimFromEnd ov mk l = (l, 0) := by
  intro l
  induction l with
  | nil => intro _; rfl
  | cons m rest ih =>
    intro hz
    by_cases h : m.role = sysRole
    · simp only [trimFromEnd]
      rw [if_pos h, ih (fun x hx hr => hz x (List.mem_cons_of_mem _ hx) hr)]
    · have hlen0 : m.content.length = 0 := hz m (List.mem_cons_self _ _) h
      have hno : ¬ trimTarget ov m < (m.content.length : Int) := by
        have := one_le_trimTarget ov m
        omega
      simp only [trimFromEnd]
      rw [if_neg h, if_neg hno]

/-- The final fit walks an all-system prefix and modifies exactly the first
non-system message. -/
theorem trimFromEnd_append_sys (ov : Int) (mk : Str) :
    ∀ (p1 : List Message) (L : Message) (p2 : List Message),
      (∀ m ∈ p1, m.role = sysRole) → ¬ L.role = sysRole →
      trimFromEnd ov mk (p1 ++ L :: p2) =
        (p1 ++ (if trimTarget ov L < (L.content.length : Int) then
          trimMessage ov mk L else L) :: p2,
         if trimTarget ov L < (L.content.length : Int) then 1 else 0) := by
  intro p1
  induction p1 with
  | nil =>
    intro L p2 _ hL
    simp only [List.nil_append, trimFromEnd]
    rw [if_neg hL]
    split_ifs <;> rfl
  | cons m rest ih =>
    intro L p2 hp1 hL
    rw [List.cons_append]
    simp only [trimFromEnd]
    rw [if_pos (hp1 m (List.mem_cons_self _ _)),
      ih L p2 (fun x hx => hp1 x (List.mem_cons_of_mem _ hx)) hL]
    rw [List.cons_append]

/-- The selection never grows the list. -/
theorem length_keptOfFlags_le (rev : List Message) (flags : List Bool) :
    (keptOfFlags rev flags).length ≤ rev.length := by
  unfold keptOfFlags
  calc (((rev.zip flags).filter (fun p => p.2)).map (fun p => p.1)).length
      = ((rev.zip flags).filter (fun p => p.2)).length := List.length_map _ _
    _ ≤ (rev.zip flags).length := List.length_filter_le _ _
    _ ≤ rev.length := by rw [List.length_zip]; omega

/-- The count-cap selection keeps at most the system count plus the
slots. -/
theorem length_keptOfFlags_keepLatest :
    ∀ (rev : List Message) (slots : Nat),
      (keptOfFlags rev (keepLatestFlags rev slots)).length ≤
        (rev.filter (fun m => decide (m.role = sysRole))).length + slots := by
  intro rev
  induction rev with
  | nil => intro slots; simp [keptOfFlags]
  | cons m rest ih =>
    intro slots
    by_cases h : m.role = sysRole
    · rw [show keepLatestFlags (m :: rest) slots =
          true :: keepLatestFlags rest slots by
        simp [keepLatestFlags, h], keptOfFlags_cons_true]
      have := ih slots
      have hfil : ((m :: rest).filter
          (fun m => decide (m.role = sysRole))).length =
          (rest.filter (fun m => decide (m.role = sysRole))).length + 1 := by
        simp [List.filter_cons, h]
      simp only [List.length_cons]
      omega
    · by_cases hs : 0 < slots
      · rw [show keepLatestFlags (m :: rest) slots =
            true :: keepLatestFlags rest (slots - 1) by
          simp [keepLatestFlags, h, hs], keptOfFlags_cons_true]
        have := ih (slots - 1)
        have hfil : ((m :: rest).filter
            (fun m => decide (m.role = sysRole))).length =
            (rest.filter (fun m => decide (m.role = sysRole))).length := by
          simp [List.filter_cons, h]
        simp only [List.length_cons, hfil]
        omega
      · rw [show keepLatestFlags (m :: rest) slots =
            false :: keepLatestFlags rest slots by
          simp [keepLatestFlags, h, hs], keptOfFlags_cons_false]
        have := ih slots
        have hfil : ((m :: rest).filter
            (fun m => decide (m.role = sysRole))).length =
            (rest.filter (fun m => decide (m.role = sysRole))).length := by
          simp [List.filter_cons, h]
        rw [hfil]
        omega

/-- keepSystemAndLatest respects a positive cap. -/
theorem length_keepSystemAndLatest_le (ms : List Message) (mm : Int)
    (h : 0 < mm) : ((keepSystemAndLatest ms mm).length : Int) ≤ mm := by
  simp only [keepSystemAndLatest]
  split_ifs with h1 h2
  · rcases h1 with h1 | h1
    · omega
    · exact h1
  · have := List.length_take_le mm.toNat
        (ms.filter (fun m => decide (m.role = sysRole)))
    omega
  · rw [List.length_reverse]
    have hb := length_keptOfFlags_keepLatest ms.reverse
      (mm.toNat - (ms.filter (fun m => decide (m.role = sysRole))).length)
    rw [List.filter_reverse, List.length_reverse] at hb
    push_neg at h2
    omega

/-- budgetStep2 respects a positive count cap. -/
theorem length_budgetStep2_le (b : MessageBudget) (ms : List Message)
    (h : 0 < b.MaxMessages) :
    ((budgetStep2 b ms).length : Int) ≤ b.MaxMessages := by
  unfold budgetStep2
  split_ifs with hc
  · exact length_keepSystemAndLatest_le ms b.MaxMessages h
  · push_neg at hc
    exact hc h

/-- keepWithinTotalChars never grows the list. -/
theorem length_keepWithinTotalChars_le (ms : List Message) (mt : Int) :
    (keepWithinTotalChars ms mt).length ≤ ms.length := by
  simp only [keepWithinTotalChars]
  split_ifs
  · exact le_refl _
  · rw [List.length_reverse]
    calc (keptOfFlags ms.reverse _).length ≤ ms.reverse.length :=
        length_keptOfFlags_le _ _
      _ = ms.length := List.length_reverse _
  · rw [List.length_reverse]
    calc (keptOfFlags ms.reverse _).length ≤ ms.reverse.length :=
        length_keptOfFlags_le _ _
      _ = ms.length := List.length_reverse _

/-- budgetStep3 never grows the list. -/
theorem length_budgetStep3_le (b : MessageBudget) (mk : Str)
    (ms : List Message) : (budgetStep3 b mk ms).1.length ≤ ms.length := by
  simp only [budgetStep3]
  split_ifs
  · rw [List.length_reverse, length_trimFromEnd, List.length_reverse]
    exact length_keepWithinTotalChars_le ms b.MaxTotalChars
  · exact length_keepWithinTotalChars_le ms b.MaxTotalChars
  · exact le_refl _

/-- budgetStep2 only keeps input messages. -/
theorem mem_budgetStep2 {b : MessageBudget} {ms : List Message} {m : Message}
    (h : m ∈ budgetStep2 b ms) : m ∈ ms := by
  unfold budgetStep2 at h
  split_ifs at h
  · exact mem_of_mem_keepSystemAndLatest h
  · exact h

/-- keepWithinTotalChars only keeps input messages. -/
theorem mem_keepWithinTotalChars {ms : List Message} {mt : Int} {m : Message}
    (h : m ∈ keepWithinTotalChars ms mt) : m ∈ ms := by
  simp only [keepWithinTotalChars] at h
  split_ifs at h
  · exact h
  · rw [List.mem_reverse] at h
    exact List.mem_reverse.mp (mem_of_mem_keptOfFlags h)
  · rw [List.mem_reverse] at h
    exact List.mem_reverse.mp (mem_of_mem_keptOfFlags h)

/-- Every final-fit output message is an input message or a shortened copy
of one with the same role. -/
theorem mem_trimFromEnd (ov : Int) (mk : Str) :
    ∀ (l : List Message) (x : Message), x ∈ (trimFromEnd ov mk l).1 →
      x ∈ l ∨ ∃ m ∈ l, x.role = m.role ∧
        x.content.length ≤ m.content.length := by
  intro l
  induction l with
  | nil => intro x hx; cases hx
  | cons m rest ih =>
    intro x hx
    by_cases h : m.role = sysRole
    · simp only [trimFromEnd] at hx
      rw [if_pos h] at hx
      rcases List.mem_cons.mp hx with rfl | hx2
      · exact Or.inl (List.mem_cons_self _ _)
      · rcases ih x hx2 with hmem | ⟨m0, hm0, hr, hl⟩
        · exact Or.inl (List.mem_cons_of_mem _ hmem)
        · exact Or.inr ⟨m0, List.mem_cons_of_mem _ hm0, hr, hl⟩
    · simp only [trimFromEnd] at hx
      rw [if_neg h] at hx
      split_ifs at hx with hcond
      · rcases List.mem_cons.mp hx with rfl | hx2
        · exact Or.inr ⟨m, List.mem_cons_self _ _, trimMessage_role_eq ov mk m,
            length_trimMessage_le ov mk m⟩
        · exact Or.inl (List.mem_cons_of_mem _ hx2)
      · rcases List.mem_cons.mp hx with rfl | hx2
        · exact Or.inl (List.mem_cons_self _ _)
        · exact Or.inl (List.mem_cons_of_mem _ hx2)

/-- ClipReady transfers to same-role messages with no more content. -/
theorem clipReady_mono {b : MessageBudget} {m x : Message}
    (hrole : x.role = m.role) (hlen : x.content.length ≤ m.content.length)
    (h : ClipReady b m) : ClipReady b x := by
  unfold ClipReady at h ⊢
  rw [effectiveLimit_of_role b hrole]
  omega

/-- System chars add over concatenation. -/
theorem totalSys_append (a b : List Message) :
    totalSys (a ++ b) = totalSys a + totalSys b := by
  simp [totalSys, List.filter_append, sumMessageChars_append]

/-- Non-system chars add over concatenation. -/
theorem sumNonSys_append (a b : List Message) :
    sumNonSys (a ++ b) = sumNonSys a + sumNonSys b := by
  simp [sumNonSys, List.filter_append, sumMessageChars_append]

/-- On an all-system list the system chars are the whole sum. -/
theorem totalSys_of_allSys {l : List Message}
    (h : ∀ m ∈ l, m.role = sysRole) : totalSys l = sumMessageChars l := by
  induction l with
  | nil => rfl
  | cons m rest ih =>
    rw [totalSys_cons_sys rest (h m (List.mem_cons_self _ _)),
      sumMessageChars_cons, ih (fun x hx => h x (List.mem_cons_of_mem _ hx))]

/-- An all-system list has no non-system chars. -/
theorem sumNonSys_of_allSys {l : List Message}
    (h : ∀ m ∈ l, m.role = sysRole) : sumNonSys l = 0 := by
  induction l with
  | nil => rfl
  | cons m rest ih =>
    rw [sumNonSys_cons_sys rest (h m (List.mem_cons_self _ _))]
    exact ih (fun x hx => h x (List.mem_cons_of_mem _ hx))

/-- Zero non-system chars means every non-system message is empty. -/
theorem allNonSysZero_of_sumNonSys_eq_zero {l : List Message}
    (h : sumNonSys l = 0) : AllNonSysZero l := by
  intro m hm hrole
  unfold sumNonSys sumMessageChars at h
  rw [List.sum_eq_zero_iff] at h
  exact h m.content.length (List.mem_map.mpr
    ⟨m, List.mem_filter.mpr ⟨hm, by simpa using hrole⟩, rfl⟩)

/-- Greedy flags are all true when every non-system message is empty. -/
theorem greedyFlags_of_allZero :
    ∀ (rev : List Message), AllNonSysZero rev → ∀ rem,
      greedyFlags rev rem = List.replicate rev.length true := by
  intro rev
  induction rev with
  | nil => intro _ rem; rfl
  | cons m rest ih =>
    intro hz rem
    have htail : AllNonSysZero rest :=
      fun x hx hr => hz x (List.mem_cons_of_mem _ hx) hr
    by_cases h : m.role = sysRole
    · rw [show greedyFlags (m :: rest) rem = true :: greedyFlags rest rem by
        simp [greedyFlags, h], ih htail rem, List.length_cons,
        List.replicate_succ]
    · have hlen0 : m.content.length = 0 := hz m (List.mem_cons_self _ _) h
      rw [show greedyFlags (m :: rest) rem =
          true :: greedyFlags rest (rem - m.content.length) by
        simp [greedyFlags, h, hlen0], hlen0, ih htail (rem - 0),
        List.length_cons, List.replicate_succ]

/-- Forcing on an all-true flag list changes nothing. -/
theorem forceFirst_replicate_true :
    ∀ rev : List Message,
      forceFirstNonSystem rev (List.replicate rev.length true) =
        List.replicate rev.length true := by
  intro rev
  induction rev with
  | nil => rfl
  | cons m rest ih =>
    rw [List.length_cons, List.replicate_succ]
    by_cases h : m.role = sysRole
    · rw [show forceFirstNonSystem (m :: rest)
          (true :: List.replicate rest.length true) =
          true :: forceFirstNonSystem rest (List.replicate rest.length true) by
        simp [forceFirstNonSystem, h], ih]
    · rw [show forceFirstNonSystem (m :: rest)
          (true :: List.replicate rest.length true) =
          true :: List.replicate rest.length true by
        simp [forceFirstNonSystem, h]]

/-- Forcing walks an all-system prefix and sets the first non-system
flag. -/
theorem forceFirst_append_sys :
    ∀ (p1 : List Message) (f1 : List Bool) (L : Message)
      (p2 : List Message) (fL : Bool) (f2 : List Bool),
      (∀ m ∈ p1, m.role = sysRole) → ¬ L.role = sysRole →
      f1.length = p1.length →
      forceFirstNonSystem (p1 ++ L :: p2) (f1 ++ fL :: f2) =
        f1 ++ true :: f2 := by
  intro p1
  induction p1 with
  | nil =>
    intro f1 L p2 fL f2 _ hL hlen
    rw [List.length_nil, List.length_eq_zero] at hlen
    subst hlen
    simp [forceFirstNonSystem, hL]
  | cons m rest ih =>
    intro f1 L p2 fL f2 hp1 hL hlen
    cases f1 with
    | nil => simp at hlen
    | cons f fs =>
      rw [List.cons_append, List.cons_append,
        show forceFirstNonSystem (m :: (rest ++ L :: p2))
          (f :: (fs ++ fL :: f2)) =
          f :: forceFirstNonSystem (rest ++ L :: p2) (fs ++ fL :: f2) by
        simp [forceFirstNonSystem, hp1 m (List.mem_cons_self _ _)],
        ih fs L p2 fL f2 (fun x hx => hp1 x (List.mem_cons_of_mem _ hx)) hL
          (by simpa using hlen), List.cons_append]

/-- On an all-system list nothing counts as a selected non-system. -/
theorem noneSelected_of_allSys {l : List Message} (flags : List Bool)
    (h : ∀ m ∈ l, m.role = sysRole) : noneSelected l flags = true := by
  unfold noneSelected
  rw [List.all_eq_true]
  intro p hp
  have := h p.1 (List.of_mem_zip hp).1
  simp [this]

/-- Truncation length when the final fit actually fires. -/
theorem length_trimMessage_of_lt (ov : Int) (mk : Str) (m : Message)
    (h : trimTarget ov m < (m.content.length : Int)) :
    ((trimMessage ov mk m).content.length : Int) = trimTarget ov m := by
  rw [trimMessage, if_pos h]
  exact length_truncateWithMarker_of_lt m.content (trimTarget ov m) mk
    (by have := one_le_trimTarget ov m; omega) h

/-- Structure of the char-cap selection when it actually fires: the system
sublist is preserved, and either the kept non-system chars fit the
remaining budget, or the output is system messages around the single
force-kept newest non-system message, whose content exceeds the remaining
budget. -/
theorem keepWithin_structure (ms : List Message) (mt : Int) (h0 : 0 < mt)
    (hover : mt < (sumMessageChars ms : Int)) :
    (keepWithinTotalChars ms mt).filter (fun m => decide (m.role = sysRole)) =
      ms.filter (fun m => decide (m.role = sysRole)) ∧
    (sumNonSys (keepWithinTotalChars ms mt) ≤
        (mt - (totalSys ms : Int)).toNat ∨
      ∃ pre L post, keepWithinTotalChars ms mt = pre ++ L :: post ∧
        (∀ m ∈ pre, m.role = sysRole) ∧ (∀ m ∈ post, m.role = sysRole) ∧
        ¬ L.role = sysRole ∧
        (mt - (totalSys ms : Int)).toNat < L.content.length) := by
  have hfilterGen : ∀ flags : List Bool, flags.length = ms.reverse.length →
      SysFlagsTrue ms.reverse flags →
      ((keptOfFlags ms.reverse flags).reverse).filter
        (fun m => decide (m.role = sysRole)) =
        ms.filter (fun m => decide (m.role = sysRole)) := by
    intro flags hlen hsf
    rw [List.filter_reverse, filter_sys_keptOfFlags ms.reverse flags hlen hsf,
      List.filter_reverse, List.reverse_reverse]
  simp only [keepWithinTotalChars]
  rw [if_neg (by omega)]
  set rem := (mt - (totalSys ms : Int)).toNat with hremdef
  split_ifs with hforce
  · obtain ⟨hns, hany⟩ := hforce
    have hexrev : ∃ m ∈ ms.reverse, ¬ m.role = sysRole := by
      rw [List.any_eq_true] at hany
      obtain ⟨m0, hm0, hr0⟩ := hany
      exact ⟨m0, List.mem_reverse.mpr hm0, by simpa using hr0⟩
    obtain ⟨p1, L, p2, heq, hp1, hL⟩ := exists_first_nonSys ms.reverse hexrev
    have hg : greedyFlags ms.reverse rem =
        List.replicate p1.length true ++ greedyFlags (L :: p2) rem := by
      rw [heq]
      exact greedyFlags_append_sys p1 (L :: p2) rem hp1
    have hfit : ¬ L.content.length ≤ rem := by
      intro hfit
      have hgl : greedyFlags (L :: p2) rem =
          true :: greedyFlags p2 (rem - L.content.length) := by
        simp [greedyFlags, hL, hfit]
      rw [hg, hgl, heq] at hns
      rw [noneSelected_append p1 (List.replicate p1.length true) _ _
        (by simp), Bool.and_eq_true] at hns
      have := hns.2
      rw [noneSelected_cons] at this
      simp [hL] at this
    have hgl : greedyFlags (L :: p2) rem = false :: greedyFlags p2 rem := by
      simp [greedyFlags, hL, hfit]
    have hns2 : noneSelected p2 (greedyFlags p2 rem) = true := by
      rw [hg, hgl, heq] at hns
      rw [noneSelected_append p1 (List.replicate p1.length true) _ _
        (by simp), Bool.and_eq_true, noneSelected_cons, Bool.and_eq_true]
        at hns
      exact hns.2.2
    have hff : forceFirstNonSystem ms.reverse (greedyFlags ms.reverse rem) =
        List.replicate p1.length true ++ true :: greedyFlags p2 rem := by
      rw [hg, hgl, heq]
      exact forceFirst_append_sys p1 (List.replicate p1.length true) L p2
        false (greedyFlags p2 rem) hp1 hL (by simp)
    have hkept : keptOfFlags ms.reverse
        (forceFirstNonSystem ms.reverse (greedyFlags ms.reverse rem)) =
        p1 ++ L :: (p2.filter (fun m => decide (m.role = sysRole))) := by
      rw [hff, heq, keptOfFlags_append p1 (List.replicate p1.length true)
          (L :: p2) (true :: greedyFlags p2 rem) (by simp),
        keptOfFlags_replicate_true, keptOfFlags_cons_true,
        keptOfFlags_of_noneSelected p2 _ (length_greedyFlags p2 rem)
          (sysFlagsTrue_greedyFlags p2 rem) hns2]
    constructor
    · exact hfilterGen _ (by rw [length_forceFirstNonSystem,
        length_greedyFlags])
        (sysFlagsTrue_forceFirst _ _ (sysFlagsTrue_greedyFlags _ _))
    · right
      refine ⟨(p2.filter (fun m => decide (m.role = sysRole))).reverse, L,
        p1.reverse, ?_, ?_, ?_, hL, by omega⟩
      · rw [hkept]
        simp [List.reverse_append, List.reverse_cons, List.append_assoc]
      · intro x hx
        rw [List.mem_reverse] at hx
        have := (List.mem_filter.mp hx).2
        simpa using this
      · intro x hx
        rw [List.mem_reverse] at hx
        exact hp1 x hx
  · constructor
    · exact hfilterGen _ (length_greedyFlags _ _)
        (sysFlagsTrue_greedyFlags _ _)
    · left
      rw [sumNonSys_reverse]
      exact sumNonSys_keptOfFlags_greedy ms.reverse _

/-- budgetStep3 when the char cap does not fire. -/
theorem budgetStep3_eq_of_no_trigger (b : MessageBudget) (mk : Str)
    (ms : List Message)
    (h1 : ¬ (0 < b.MaxTotalChars ∧
      b.MaxTotalChars < (sumMessageChars ms : Int))) :
    (budgetStep3 b mk ms).1 = ms := by
  simp only [budgetStep3]
  rw [if_neg h1]

/-- budgetStep3 when the cap fires but the selection already fits. -/
theorem budgetStep3_eq_of_within (b : MessageBudget) (mk : Str)
    (ms : List Message)
    (h1 : 0 < b.MaxTotalChars ∧ b.MaxTotalChars < (sumMessageChars ms : Int))
    (h2 : ¬ b.MaxTotalChars <
      (sumMessageChars (keepWithinTotalChars ms b.MaxTotalChars) : Int)) :
    (budgetStep3 b mk ms).1 = keepWithinTotalChars ms b.MaxTotalChars := by
  simp only [budgetStep3]
  rw [if_pos h1, if_neg h2]

/-- budgetStep3 when both the cap and the final fit fire. -/
theorem budgetStep3_eq_of_trigger (b : MessageBudget) (mk : Str)
    (ms : List Message)
    (h1 : 0 < b.MaxTotalChars ∧ b.MaxTotalChars < (sumMessageChars ms : Int))
    (h2 : b.MaxTotalChars <
      (sumMessageChars (keepWithinTotalChars ms b.MaxTotalChars) : Int)) :
    (budgetStep3 b mk ms).1 =
      (trimFromEnd
        ((sumMessageChars (keepWithinTotalChars ms b.MaxTotalChars) : Int) -
          b.MaxTotalChars) mk
        (keepWithinTotalChars ms b.MaxTotalChars).reverse).1.reverse := by
  simp only [budgetStep3]
  rw [if_pos h1, if_pos h2]

/-- First component of the all-zero final-fit no-op. -/
theorem trimFromEnd_fst_of_allZero (ov : Int) (mk : Str) (l : List Message)
    (h : ∀ m ∈ l, ¬ m.role = sysRole → m.content.length = 0) :
    (trimFromEnd ov mk l).1 = l := by
  rw [trimFromEnd_of_allZero ov mk l h]

/-- First component of the final fit at the first non-system message. -/
theorem trimFromEnd_fst_append_sys (ov : Int) (mk : Str) (p1 : List Message)
    (L : Message) (p2 : List Message) (hp1 : ∀ m ∈ p1, m.role = sysRole)
    (hL : ¬ L.role = sysRole) :
    (trimFromEnd ov mk (p1 ++ L :: p2)).1 =
      p1 ++ (if trimTarget ov L < (L.content.length : Int) then
        trimMessage ov mk L else L) :: p2 := by
  rw [trimFromEnd_append_sys ov mk p1 L p2 hp1 hL]

/-- Reversal shuffles an all-around-one decomposition. -/
theorem reverse_append_cons_reverse (a : List Message) (x : Message)
    (b : List Message) : (b.reverse ++ x :: a.reverse).reverse =
      a ++ x :: b := by
  simp [List.reverse_append, List.reverse_cons, List.append_assoc]

/-- All outputs of budgetStep3 are ClipReady when all inputs are. -/
theorem clipReady_budgetStep3 (b : MessageBudget) (mk : Str)
    (ms : List Message) (h : ∀ m ∈ ms, ClipReady b m) :
    ∀ x ∈ (budgetStep3 b mk ms).1, ClipReady b x := by
  simp only [budgetStep3]
  split_ifs
  · intro x hx
    rw [List.mem_reverse] at hx
    rcases mem_trimFromEnd _ _ _ x hx with hmem | ⟨m0, hm0, hr, hl⟩
    · rw [List.mem_reverse] at hmem
      exact h x (mem_keepWithinTotalChars hmem)
    · rw [List.mem_reverse] at hm0
      exact clipReady_mono hr hl (h m0 (mem_keepWithinTotalChars hm0))
  · intro x hx
    exact h x (mem_keepWithinTotalChars hx)
  · exact h

/-- If the output of budgetStep3 still exceeds a positive char cap, the
system chars alone meet the cap, and the non-system remainder is all empty
or a single forced message of length one. -/
theorem budgetStep3_over_structure (b : MessageBudget) (mk : Str)
    (ms : List Message) (hpos : 0 < b.MaxTotalChars)
    (hover : b.MaxTotalChars <
      (sumMessageChars (budgetStep3 b mk ms).1 : Int)) :
    b.MaxTotalChars ≤ (totalSys (budgetStep3 b mk ms).1 : Int) ∧
    (AllNonSysZero (budgetStep3 b mk ms).1 ∨
      OneNonSysUnit (budgetStep3 b mk ms).1) := by
  by_cases hc3 : 0 < b.MaxTotalChars ∧
      b.MaxTotalChars < (sumMessageChars ms : Int)
  · by_cases hover2 : b.MaxTotalChars <
        (sumMessageChars (keepWithinTotalChars ms b.MaxTotalChars) : Int)
    · obtain ⟨hfilter, hshape⟩ :=
        keepWithin_structure ms b.MaxTotalChars hc3.1 hc3.2
      have hSnext : totalSys (keepWithinTotalChars ms b.MaxTotalChars) =
          totalSys ms := totalSys_eq_of_filter_eq hfilter
      have hsplit :=
        sumMessageChars_split (keepWithinTotalChars ms b.MaxTotalChars)
      rcases hshape with hsum |
        ⟨pre, L, post, heqn, hpre, hpost, hLrole, hLlen⟩
      · -- not forced: all kept non-system chars are zero, final fit no-op.
        have hS : b.MaxTotalChars ≤ (totalSys ms : Int) := by
          by_contra hlt
          push_neg at hlt
          omega
        have hz : AllNonSysZero (keepWithinTotalChars ms b.MaxTotalChars) := by
          apply allNonSysZero_of_sumNonSys_eq_zero
          omega
        rw [budgetStep3_eq_of_trigger b mk ms hc3 hover2,
          trimFromEnd_fst_of_allZero _ mk _
            (fun m hm hr => hz m (List.mem_reverse.mp hm) hr),
          List.reverse_reverse]
        exact ⟨by rw [hSnext]; exact hS, Or.inl hz⟩
      · -- forced: a single over-long non-system message gets truncated.
        have hpostrev : ∀ x ∈ post.reverse, x.role = sysRole :=
          fun x hx => hpost x (List.mem_reverse.mp hx)
        have hrevshape : (keepWithinTotalChars ms b.MaxTotalChars).reverse =
            post.reverse ++ L :: pre.reverse := by
          rw [heqn]
          simp [List.reverse_append, List.reverse_cons, List.append_assoc]
        have hnonsys : sumNonSys (keepWithinTotalChars ms b.MaxTotalChars) =
            L.content.length := by
          rw [heqn, sumNonSys_append, sumNonSys_cons_nonsys _ hLrole,
            sumNonSys_of_allSys hpre, sumNonSys_of_allSys hpost]
          omega
        have hSsplit : totalSys ms =
            sumMessageChars pre + sumMessageChars post := by
          rw [← hSnext, heqn, totalSys_append, totalSys_cons_nonsys _ hLrole,
            totalSys_of_allSys hpre, totalSys_of_allSys hpost]
        rw [budgetStep3_eq_of_trigger b mk ms hc3 hover2, hrevshape,
          trimFromEnd_fst_append_sys _ mk post.reverse L pre.reverse
            hpostrev hLrole,
          reverse_append_cons_reverse pre _ post] at hover ⊢
        by_cases hSlt : (totalSys ms : Int) < b.MaxTotalChars
        · -- would have been truncated to fit exactly: contradicts hover.
          exfalso
          have hcond : trimTarget
              ((sumMessageChars (keepWithinTotalChars ms b.MaxTotalChars) :
                Int) - b.MaxTotalChars) L < (L.content.length : Int) := by
            simp only [trimTarget]
            split_ifs <;> omega
          rw [if_pos hcond] at hover
          have hlen2 := length_trimMessage_of_lt _ mk L hcond
          have htt : trimTarget
              ((sumMessageChars (keepWithinTotalChars ms b.MaxTotalChars) :
                Int) - b.MaxTotalChars) L =
              b.MaxTotalChars - (totalSys ms : Int) := by
            simp only [trimTarget]
            rw [if_neg (by omega)]
            omega
          rw [sumMessageChars_append, sumMessageChars_cons] at hover
          omega
        · -- system chars already meet the cap; forced message has length 1.
          push_neg at hSlt
          have htt1 : trimTarget
              ((sumMessageChars (keepWithinTotalChars ms b.MaxTotalChars) :
                Int) - b.MaxTotalChars) L = 1 := by
            simp only [trimTarget]
            rw [if_pos (by omega)]
          by_cases hcond2 : trimTarget
              ((sumMessageChars (keepWithinTotalChars ms b.MaxTotalChars) :
                Int) - b.MaxTotalChars) L < (L.content.length : Int)
          · rw [if_pos hcond2]
            have hlen3 := length_trimMessage_of_lt _ mk L hcond2
            have hXrole : ¬ (trimMessage
                ((sumMessageChars (keepWithinTotalChars ms b.MaxTotalChars) :
                  Int) - b.MaxTotalChars) mk L).role = sysRole := by
              rw [trimMessage_role]
              exact hLrole
            constructor
            · rw [totalSys_append, totalSys_cons_nonsys post hXrole,
                totalSys_of_allSys hpre, totalSys_of_allSys hpost]
              omega
            · exact Or.inr ⟨pre, _, post, rfl, hpre, hpost, hXrole,
                by omega⟩
          · rw [if_neg hcond2]
            constructor
            · rw [totalSys_append, totalSys_cons_nonsys post hLrole,
                totalSys_of_allSys hpre, totalSys_of_allSys hpost]
              omega
            · exact Or.inr ⟨pre, L, post, rfl, hpre, hpost, hLrole,
                by omega⟩
    · rw [budgetStep3_eq_of_within b mk ms hc3 hover2] at hover
      exact absurd hover hover2
  · rw [budgetStep3_eq_of_no_trigger b mk ms hc3] at hover
    exact absurd ⟨hpos, hover⟩ hc3

/-- A list whose system chars meet the cap and whose non-system remainder
is all empty or a single unit message is a fixed point of budgetStep3. -/
theorem budgetStep3_fixpoint_of_structure (b : MessageBudget) (mk : Str)
    (out : List Message) (hS : b.MaxTotalChars ≤ (totalSys out : Int))
    (hshape : AllNonSysZero out ∨ OneNonSysUnit out) :
    (budgetStep3 b mk out).1 = out := by
  by_cases hc3 : 0 < b.MaxTotalChars ∧
      b.MaxTotalChars < (sumMessageChars out : Int)
  · have hrem0 : (b.MaxTotalChars - (totalSys out : Int)).toNat = 0 := by
      omega
    have hkw : keepWithinTotalChars out b.MaxTotalChars = out := by
      rcases hshape with hz | ⟨pre, L, post, heqn, hpre, hpost, hLrole, hLlen⟩
      · have hg := greedyFlags_of_allZero out.reverse
          (fun m hm hr => hz m (List.mem_reverse.mp hm) hr)
          ((b.MaxTotalChars - (totalSys out : Int)).toNat)
        simp only [keepWithinTotalChars]
        rw [if_neg (by omega), hg, forceFirst_replicate_true, ite_self,
          keptOfFlags_replicate_true, List.reverse_reverse]
      · have hprerev : ∀ m ∈ pre.reverse, m.role = sysRole :=
          fun m hm => hpre m (List.mem_reverse.mp hm)
        have hpostrev : ∀ m ∈ post.reverse, m.role = sysRole :=
          fun m hm => hpost m (List.mem_reverse.mp hm)
        have hrevshape : out.reverse = post.reverse ++ L :: pre.reverse := by
          rw [heqn]
          simp [List.reverse_append, List.reverse_cons, List.append_assoc]
        have hany : out.any (fun m => !decide (m.role = sysRole)) = true := by
          rw [heqn, List.any_append, List.any_cons]
          simp [hLrole]
        have hgpre : greedyFlags pre.reverse 0 =
            List.replicate pre.reverse.length true :=
          greedyFlags_of_allZero pre.reverse
            (fun m hm hr => absurd (hprerev m hm) hr) 0
        have hgfull : greedyFlags out.reverse
            ((b.MaxTotalChars - (totalSys out : Int)).toNat) =
            List.replicate post.reverse.length true ++
              false :: List.replicate pre.reverse.length true := by
          rw [hrevshape, hrem0,
            greedyFlags_append_sys post.reverse (L :: pre.reverse) 0 hpostrev]
          congr 1
          simp only [greedyFlags]
          rw [if_neg hLrole, if_neg (by omega), hgpre]
        have hns : noneSelected out.reverse
            (List.replicate post.reverse.length true ++
              false :: List.replicate pre.reverse.length true) = true := by
          rw [hrevshape,
            noneSelected_append post.reverse _ (L :: pre.reverse) _ (by simp),
            noneSelected_cons, noneSelected_of_allSys _ hpostrev,
            noneSelected_of_allSys _ hprerev]
          simp
        simp only [keepWithinTotalChars]
        rw [if_neg (by omega), hgfull, if_pos ⟨hns, hany⟩, hrevshape,
          forceFirst_append_sys post.reverse
            (List.replicate post.reverse.length true) L pre.reverse false
            (List.replicate pre.reverse.length true) hpostrev hLrole
            (by simp),
          keptOfFlags_append post.reverse
            (List.replicate post.reverse.length true) (L :: pre.reverse)
            (true :: List.replicate pre.reverse.length true) (by simp),
          keptOfFlags_replicate_true, keptOfFlags_cons_true,
          keptOfFlags_replicate_true,
          reverse_append_cons_reverse pre L post, heqn]
    by_cases hover2 : b.MaxTotalChars <
        (sumMessageChars (keepWithinTotalChars out b.MaxTotalChars) : Int)
    · rw [budgetStep3_eq_of_trigger b mk out hc3 hover2, hkw]
      rcases hshape with hz | ⟨pre, L, post, heqn, hpre, hpost, hLrole, hLlen⟩
      · rw [trimFromEnd_fst_of_allZero _ mk _
            (fun m hm hr => hz m (List.mem_reverse.mp hm) hr),
          List.reverse_reverse]
      · have hpostrev : ∀ x ∈ post.reverse, x.role = sysRole :=
          fun x hx => hpost x (List.mem_reverse.mp hx)
        have hrevshape : out.reverse = post.reverse ++ L :: pre.reverse := by
          rw [heqn]
          simp [List.reverse_append, List.reverse_cons, List.append_assoc]
        have hcondF : ¬ trimTarget
            ((sumMessageChars out : Int) - b.MaxTotalChars) L <
            (L.content.length : Int) := by
          have h1 := one_le_trimTarget
            ((sumMessageChars out : Int) - b.MaxTotalChars) L
          omega
        rw [hrevshape, trimFromEnd_fst_append_sys _ mk post.reverse L
            pre.reverse hpostrev hLrole, if_neg hcondF,
          reverse_append_cons_reverse pre L post, heqn]
    · rw [budgetStep3_eq_of_within b mk out hc3 hover2, hkw]
  · exact budgetStep3_eq_of_no_trigger b mk out hc3

/-- ApplyMessageBudget in its trivial branch returns the input. -/
theorem applyMessageBudget_fst_of_trivial (messages : List Message)
    (budget : MessageBudget) (h : messages.length = 0 ∨ ¬ budget.Enabled) :
    (ApplyMessageBudget messages budget).1 = messages := by
  simp only [ApplyMessageBudget]
  rw [if_pos h]

/-- ApplyMessageBudget in its main branch is the three-step pipeline. -/
theorem applyMessageBudget_fst_of_main (messages : List Message)
    (budget : MessageBudget)
    (h : ¬ (messages.length = 0 ∨ ¬ budget.Enabled)) :
    (ApplyMessageBudget messages budget).1 =
      (budgetStep3 budget budget.marker
        (budgetStep2 budget (clipPass budget budget.marker messages))).1 := by
  simp only [ApplyMessageBudget]
  rw [if_neg h]

/-- budgetStep2 does nothing when the count cap is off or satisfied. -/
theorem budgetStep2_eq_of_no_trigger (b : MessageBudget) (ms : List Message)
    (h : ¬ (0 < b.MaxMessages ∧ b.MaxMessages < (ms.length : Int))) :
    budgetStep2 b ms = ms := by
  unfold budgetStep2
  rw [if_neg h]

/-- C6: ApplyMessageBudget is idempotent at the output level: for every
messages and budget, applying the budget to its own output messages with
the same budget yields those output messages again. -/
theorem applyMessageBudget_idempotent (messages : List Message)
    (budget : MessageBudget) :
    (ApplyMessageBudget (ApplyMessageBudget messages budget).1 budget).1 =
      (ApplyMessageBudget messages budget).1 := by
  by_cases h1 : messages.length = 0 ∨ ¬ budget.Enabled
  · rw [applyMessageBudget_fst_of_trivial messages budget h1]
    exact applyMessageBudget_fst_of_trivial messages budget h1
  · rw [applyMessageBudget_fst_of_main messages budget h1]
    have hready : ∀ m ∈ (budgetStep3 budget budget.marker
        (budgetStep2 budget (clipPass budget budget.marker messages))).1,
        ClipReady budget m :=
      clipReady_budgetStep3 budget budget.marker _
        (fun m hm => clipReady_of_mem_clipPass budget budget.marker messages m
          (mem_budgetStep2 hm))
    by_cases h2 : (budgetStep3 budget budget.marker
        (budgetStep2 budget (clipPass budget budget.marker
          messages))).1.length = 0 ∨ ¬ budget.Enabled
    · exact applyMessageBudget_fst_of_trivial _ budget h2
    · rw [applyMessageBudget_fst_of_main _ budget h2,
        clipPass_of_clipReady budget budget.marker _ hready]
      have hcount : ¬ (0 < budget.MaxMessages ∧ budget.MaxMessages <
          (((budgetStep3 budget budget.marker (budgetStep2 budget
            (clipPass budget budget.marker messages))).1.length : Int))) := by
        intro hx
        have hl3 := length_budgetStep3_le budget budget.marker
          (budgetStep2 budget (clipPass budget budget.marker messages))
        have hl2 := length_budgetStep2_le budget
          (clipPass budget budget.marker messages) hx.1
        omega
      rw [budgetStep2_eq_of_no_trigger budget _ hcount]
      by_cases hc : 0 < budget.MaxTotalChars ∧ budget.MaxTotalChars <
          (sumMessageChars (budgetStep3 budget budget.marker
            (budgetStep2 budget (clipPass budget budget.marker
              messages))).1 : Int)
      · obtain ⟨hstructS, hstructShape⟩ := budgetStep3_over_structure budget
          budget.marker
          (budgetStep2 budget (clipPass budget budget.marker messages))
          hc.1 hc.2
        exact budgetStep3_fixpoint_of_structure budget budget.marker _
          hstructS hstructShape
      · exact budgetStep3_eq_of_no_trigger budget budget.marker _ hc

end providers

namespace agent

/-- Witness for C5: one iteration requesting a tool call, then a summary
call answered with "done". -/
theorem runLLMIteration_exhaustion_summary_witness :
    (runLLMIteration
      (fun k => if k = 0
        then Except.ok (providers.LLMResponse.mk []
          [providers.ToolCall.mk "tc1".data "t".data []] "tool_calls".data none)
        else Except.ok (providers.LLMResponse.mk "done".data [] "stop".data none))
      [] (fun _ _ => []) 1
      [providers.Message.mk "user".data "hi".data [] []]).finalContent =
      "done".data ∧
    (runLLMIteration
      (fun k => if k = 0
        then Except.ok (providers.LLMResponse.mk []
          [providers.ToolCall.mk "tc1".data "t".data []] "tool_calls".data none)
        else Except.ok (providers.LLMResponse.mk "done".data [] "stop".data none))
      [] (fun _ _ => []) 1
      [providers.Message.mk "user".data "hi".data [] []]).iterations = 1 := by
  have h := runLLMIteration_exhaustion_summary
    (fun k => if k = 0
      then Except.ok (providers.LLMResponse.mk []
        [providers.ToolCall.mk "tc1".data "t".data []] "tool_calls".data none)
      else Except.ok (providers.LLMResponse.mk "done".data [] "stop".data none))
    (fun _ => providers.LLMResponse.mk []
      [providers.ToolCall.mk "tc1".data "t".data []] "tool_calls".data none)
    [] (fun _ _ => []) 1
    [providers.Message.mk "user".data "hi".data [] []]
    (fun k hk => by
      have hk0 : k = 0 := by omega
      subst hk0
      exact ⟨rfl, by decide⟩)
  exact ⟨h.2.2.2.2.1 _ rfl, h.1⟩

end agent

end Picoclaw
